import Mathlib

/-!
# Score aggregation and override propagation of the data-mesh maturity dashboard

A shallow embedding of the aggregation and override logic of `static/app.js`
(`getBand`, `recalcDomainAggregates`, `loadDomainDetail`, `handleScoreChange`)
together with the properties the specification states about it.

Modelling conventions.

* A JavaScript number is a rational number (`ℚ`); `NaN` and the infinities are
  separate values where the code can meet them (`getBand`).  A score that is `null` or
  `undefined` is `none`.
* The aggregation is given in two evaluations.  In `roundedMean`,
  `recalcDomainAggregates`, `loadDomainDetail` and `handleScoreChange` the sum, the
  quotient and the products of lines 443 and 450 are exact.  In `roundedMean64`,
  `recalcDomainAggregates64`, `loadDomainDetail64` and `handleScoreChange64` every one
  of these operations returns the nearest binary64 number (`binary64`, ties to even), as
  the engine computes it.  On whole-number scores the binary64 evaluation stores the
  binary64 number nearest to the average of the exact evaluation, except at a mean that
  lies exactly halfway between two hundredths, where it can store the number nearest to
  the hundredth below (`roundedMean64_whole`).  The theorems that relate the stored
  averages to the mean of the scores (sections on the aggregation and on changing a
  score) and the evaluation of the clearing of an override are stated on the binary64
  evaluation; the remaining sections are stated on the exact evaluation.
* `Math.round y` is `⌊y + 1/2⌋` (nearest integer, ties toward `+∞`).
* The argument of `getBand` ranges over the values of JSON data (`null`, numbers,
  booleans, strings, arrays, plain objects) together with `undefined`, `NaN` and the
  infinities; `parseFloat` reads the longest numeric prefix of the string form of its
  argument.
* A JavaScript object used as a dictionary is an association list whose keys are
  kept in insertion order.
* A function that mutates its argument in place returns the mutated value; a
  `TypeError` that escapes a function is an explicit failure result.
* DOM reads and writes and chart rendering are not part of the model: these calls
  read the state without changing it and are taken to return normally.
* Pillar objects and matrix columns carry one of the four fixed pillar names of the
  data model; the `pillar` of a question is the raw string of the fetched data.
-/

namespace DataMeshMaturity

/-! ## IEEE 754 binary64 -/

/-- Number of halvings that bring `n` below 2, at most `fuel` of them. -/
def log2Fuel : Nat → Nat → Nat
  | 0, _ => 0
  | fuel + 1, n => if n < 2 then 0 else log2Fuel fuel (n / 2) + 1

/-- The integer part of the binary logarithm of `n` (0 for `n = 0`). -/
def natLog2 (n : Nat) : Nat := log2Fuel n n

/-- The integer part of the binary logarithm of `|x|`, for `x` other than 0. -/
def floorLog2 (x : ℚ) : ℤ :=
  if (2 : ℚ) ^ ((natLog2 x.num.natAbs : ℤ) - (natLog2 x.den : ℤ)) ≤ |x| then
    (natLog2 x.num.natAbs : ℤ) - (natLog2 x.den : ℤ)
  else (natLog2 x.num.natAbs : ℤ) - (natLog2 x.den : ℤ) - 1

/-- Nearest integer, ties to the even one. -/
def roundTiesEven (y : ℚ) : ℤ :=
  if y - ⌊y⌋ < 1 / 2 then ⌊y⌋
  else if 1 / 2 < y - ⌊y⌋ then ⌊y⌋ + 1
  else if ⌊y⌋ % 2 = 0 then ⌊y⌋ else ⌊y⌋ + 1

/-- The binary64 value nearest to `x`, ties to even: a significand of 53 bits, and the
fixed spacing `2 ^ (-1074)` of the subnormal range below `2 ^ (-1022)`.  The exponent is
not bounded above: a result of magnitude `2 ^ 1024` or more stands for an infinity
(see `toParsed`); the aggregation never reaches it on scores below `2 ^ 1000`. -/
def binary64 (x : ℚ) : ℚ :=
  if x = 0 then 0
  else
    (roundTiesEven (x / 2 ^ max (floorLog2 x - 52) (-1074)) : ℚ) *
      2 ^ max (floorLog2 x - 52) (-1074)

/-! ## Data model -/

/-- The six band labels `getBand` can return. -/
inductive Band
  | Initial
  | Developing
  | Defined
  | Managed
  | Optimized
  | NotAssessed
  deriving DecidableEq, Repr

/-- The number `parseFloat` returns: `NaN`, an infinity, or a finite value. -/
inductive Parsed
  | nan
  | negInf
  | posInf
  | fin (x : ℚ)
  deriving DecidableEq

/-- The values the argument of `getBand` can hold at run time: the values of JSON data
(`null`, a finite number, a boolean, a string, a plain object, an array of such values)
and, from the arithmetic of the code, `undefined`, `NaN` and the infinities. -/
inductive Value
  | null
  | undefined
  | nan
  | num (x : ℚ)
  | inf (negative : Bool)
  | bool (b : Bool)
  | str (s : String)
  | object
  | array (elems : List Value)

/-- White space and line terminators, which `parseFloat` skips at the start. -/
def isWhiteSpace (c : Char) : Bool :=
  decide (c.toNat ∈ [9, 10, 11, 12, 13, 32, 160, 5760, 8232, 8233, 8239, 8287, 12288, 65279])
    || (decide (8192 ≤ c.toNat) && decide (c.toNat ≤ 8202))

/-- The value of a run of decimal digits. -/
def digitsValue (ds : List Char) : ℕ :=
  ds.foldl (fun n c => 10 * n + (c.toNat - 48)) 0

/-- The exponent part at the head of `cs`: `e` or `E`, an optional sign and at least
one digit; 0 when there is none. -/
def exponentPart (cs : List Char) : ℤ :=
  match cs with
  | c :: rest =>
    if c = 'e' ∨ c = 'E' then
      match rest with
      | s :: rest1 =>
        if s = '-' then
          (if (rest1.takeWhile Char.isDigit).isEmpty then 0
           else -((digitsValue (rest1.takeWhile Char.isDigit) : ℕ) : ℤ))
        else if s = '+' then ((digitsValue (rest1.takeWhile Char.isDigit) : ℕ) : ℤ)
        else ((digitsValue (rest.takeWhile Char.isDigit) : ℕ) : ℤ)
      | [] => 0
    else 0
  | [] => 0

/-- The Number value of a mathematical value: rounded to binary64, an infinity from
`2 ^ 1024` on. -/
def toParsed (x : ℚ) : Parsed :=
  if (2 : ℚ) ^ (1024 : ℕ) ≤ binary64 x then .posInf
  else if binary64 x ≤ -(2 : ℚ) ^ (1024 : ℕ) then .negInf
  else .fin (binary64 x)

/-- The longest unsigned decimal literal at the head of `cs`, if there is one:
`Infinity`, or digits with an optional fraction and an optional exponent part. -/
def unsignedLiteral (cs : List Char) : Option Parsed :=
  if "Infinity".data.isPrefixOf cs then some .posInf
  else
    let d1 := cs.takeWhile Char.isDigit
    let r1 := cs.dropWhile Char.isDigit
    match r1 with
    | '.' :: r2 =>
      let d2 := r2.takeWhile Char.isDigit
      let r3 := r2.dropWhile Char.isDigit
      if d1.isEmpty && d2.isEmpty then none
      else some (toParsed (((digitsValue d1 : ℚ) + (digitsValue d2 : ℚ) / 10 ^ d2.length)
        * 10 ^ exponentPart r3))
    | _ =>
      if d1.isEmpty then none
      else some (toParsed ((digitsValue d1 : ℚ) * 10 ^ exponentPart r1))

/-- Sign change of a parsed number. -/
def Parsed.neg : Parsed → Parsed
  | .nan => .nan
  | .negInf => .posInf
  | .posInf => .negInf
  | .fin x => .fin (-x)

/-- Platform function `parseFloat` on a string: leading white space is skipped, the
longest prefix that is a signed decimal literal is read and rounded to binary64, and
`NaN` is returned when there is no such prefix. -/
def parseFloatText (s : String) : Parsed :=
  match s.data.dropWhile isWhiteSpace with
  | '-' :: cs => ((unsignedLiteral cs).map Parsed.neg).getD .nan
  | '+' :: cs => (unsignedLiteral cs).getD .nan
  | cs => (unsignedLiteral cs).getD .nan

/-- JavaScript falsiness (`!val`): `null`, `undefined`, `NaN`, `0`, `false` and the
empty string are falsy. -/
def Value.falsy : Value → Bool
  | .null => true
  | .undefined => true
  | .nan => true
  | .num x => decide (x = 0)
  | .bool b => !b
  | .str s => decide (s = "")
  | _ => false

/-- Whether `val === 0`. -/
def Value.isZero : Value → Bool
  | .num x => decide (x = 0)
  | _ => false

/-- Platform function `parseFloat(val)`, which parses the string form of `val`.  A
number is printed and parsed back to itself; `null`, `undefined`, a boolean and a plain
object print as text without a numeric prefix.  An array prints as its elements joined by
commas, `null` and `undefined` as nothing, so the prefix read from it is the one read
from its first element. -/
def Value.parseFloat : Value → Parsed
  | .num x => .fin x
  | .inf negative => if negative then .negInf else .posInf
  | .str s => parseFloatText s
  | .array (v :: _) =>
    match v with
    | .null => .nan
    | .undefined => .nan
    | w => w.parseFloat
  | _ => .nan

/-- A nullable score as a run-time value. -/
def scoreValue : Option ℚ → Value
  | none => .null
  | some x => .num x

/-- Source: `getBand(val)`, app.js lines 68-77: the guard `!val && val !== 0` of line
69, `parseFloat(val)` of line 70, the guard `isNaN(s)` of line 71 and the thresholds of
lines 72-76.  The comparisons with an infinity are `Infinity >= 4.5` (true) and
`-Infinity >= 1.5` (false). -/
def getBand (val : Value) : Band :=
  if val.falsy = true ∧ val.isZero = false then .NotAssessed
  else
    match val.parseFloat with
    | .nan => .NotAssessed
    | .posInf => .Optimized
    | .negInf => .Initial
    | .fin s =>
      if s ≥ 4.5 then .Optimized
      else if s ≥ 3.5 then .Managed
      else if s ≥ 2.5 then .Defined
      else if s ≥ 1.5 then .Developing
      else .Initial

/-- Reference classifier, written from the specification (section 4.1):
thresholds with closed lower bounds, `null` is Not Assessed. -/
def classify : Option ℚ → Band
  | none => .NotAssessed
  | some x =>
    if 4.5 ≤ x then .Optimized
    else if 3.5 ≤ x then .Managed
    else if 2.5 ≤ x then .Defined
    else if 1.5 ≤ x then .Developing
    else .Initial

/-- The band of a parsed number: `classify` of a finite value, Not Assessed for `NaN`,
Optimized for `Infinity` and Initial for `-Infinity`. -/
def classifyParsed : Parsed → Band
  | .nan => .NotAssessed
  | .posInf => .Optimized
  | .negInf => .Initial
  | .fin x => classify (some x)

/-- The four fixed pillar names. -/
inductive PillarName
  | DomainOwnership
  | DataAsAProduct
  | SelfServeDataPlatform
  | FederatedGovernance
  deriving DecidableEq, Repr

/-- The property key a pillar name stands for. -/
def PillarName.key : PillarName → String
  | .DomainOwnership => "Domain Ownership"
  | .DataAsAProduct => "Data as a Product"
  | .SelfServeDataPlatform => "Self-Serve Data Platform"
  | .FederatedGovernance => "Federated Governance"

/-- Source: the constant `pillarOrder` of `recalcDomainAggregates`. -/
def pillarOrder : List String :=
  ["Domain Ownership", "Data as a Product", "Self-Serve Data Platform", "Federated Governance"]

/-- A question of a domain detail.  `pillar` is the raw string of the fetched
data: it may fail to be one of the four fixed names. -/
structure Question where
  id : String
  pillar : String
  text : String
  score : Option ℚ
  band : Band
  deriving DecidableEq

/-- A pillar object of a domain detail or of a summary entry; `name` is one of the
four fixed pillar names. -/
structure Pillar where
  name : PillarName
  avg_score : Option ℚ
  band : Band
  scored_count : Nat
  total_count : Nat
  deriving DecidableEq

/-- The domain detail held in `currentDomainData` (the `stats` object, which the
aggregation never reads or writes, is left out). -/
structure DomainData where
  domain : String
  questions : List Question
  pillars : List Pillar
  overall_score : Option ℚ
  overall_band : Band
  deriving DecidableEq

/-- An element of `allDomains`. -/
structure SummaryEntry where
  domain : String
  overall_score : Option ℚ
  overall_band : Band
  pillars : List Pillar
  deriving DecidableEq

/-- A row of `overviewData.matrix`: one cell per fixed pillar name and `overall`. -/
structure MatrixRow where
  domain : String
  domainOwnership : Option ℚ
  dataAsAProduct : Option ℚ
  selfServeDataPlatform : Option ℚ
  federatedGovernance : Option ℚ
  overall : Option ℚ
  deriving DecidableEq

/-- Read `row[name]`. -/
def MatrixRow.get (r : MatrixRow) : PillarName → Option ℚ
  | .DomainOwnership => r.domainOwnership
  | .DataAsAProduct => r.dataAsAProduct
  | .SelfServeDataPlatform => r.selfServeDataPlatform
  | .FederatedGovernance => r.federatedGovernance

/-- Write `row[name] = v`. -/
def MatrixRow.set (r : MatrixRow) (name : PillarName) (v : Option ℚ) : MatrixRow :=
  match name with
  | .DomainOwnership => { r with domainOwnership := v }
  | .DataAsAProduct => { r with dataAsAProduct := v }
  | .SelfServeDataPlatform => { r with selfServeDataPlatform := v }
  | .FederatedGovernance => { r with federatedGovernance := v }

/-- The object `overviewData` (its `matrix`; the `pillars` header list is only rendered). -/
structure Overview where
  matrix : List MatrixRow
  deriving DecidableEq

/-- The overrides of one domain: `{ questionId: score }`. -/
abbrev Overrides := List (String × Option ℚ)

/-- The object `scoreOverrides`: `{ domain: { questionId: score } }`. -/
abbrev OverrideStore := List (String × Overrides)

/-- The module-level state of app.js, and the log of `saveOverride` calls
(domain, question id, score), oldest first. -/
structure State where
  allDomains : List SummaryEntry
  overviewData : Option Overview
  currentDomainData : Option DomainData
  scoreOverrides : OverrideStore
  saved : List (String × String × Option ℚ)
  deriving DecidableEq

/-- What a handler leaves behind: the state, and whether a `TypeError` escaped. -/
structure Outcome where
  state : State
  threw : Bool
  deriving DecidableEq

/-! ## JavaScript helpers -/

/-- Property assignment `o[k] = v`: replaces the value of an existing key in
place, appends a new key. -/
def objSet {α : Type} (o : List (String × α)) (k : String) (v : α) : List (String × α) :=
  if o.any (fun e => e.1 == k) then o.map (fun e => if e.1 = k then (k, v) else e)
  else o ++ [(k, v)]

/-- Property removal `delete o[k]`. -/
def objDelete {α : Type} (o : List (String × α)) (k : String) : List (String × α) :=
  o.filter (fun e => e.1 != k)

/-- Mutation of the element `xs.find(p)` returns, if any: the first element
that satisfies `p` is replaced by `f` of it. -/
def updateFirst {α : Type} (p : α → Bool) (f : α → α) : List α → List α
  | [] => []
  | a :: as => if p a then f a :: as else a :: updateFirst p f as

/-- Platform function `Math.round`: nearest integer, ties toward plus infinity. -/
def Math.round (y : ℚ) : ℤ := ⌊y + 1 / 2⌋

/-! ## Aggregation -/

/-- The local object `pillarScores`: pillar name to list of scores. -/
abbrev PillarScores := List (String × List ℚ)

/-- Source: `pillarScores[pillar].push(score)`.  When `pillarScores[pillar]` is
`undefined` the call throws a `TypeError` (`none`). -/
def PillarScores.push (ps : PillarScores) (pillar : String) (score : ℚ) : Option PillarScores :=
  match ps.lookup pillar with
  | none => none
  | some _ => some (ps.map (fun e => if e.1 = pillar then (e.1, e.2 ++ [score]) else e))

/-- Source: the loop `data.questions.forEach(q => ...)` of `recalcDomainAggregates`
(lines 434-438), started on the buckets `ps`. -/
def collectScores : List Question → PillarScores → Option PillarScores
  | [], ps => some ps
  | q :: qs, ps =>
    match q.score with
    | none => collectScores qs ps
    | some x =>
      match ps.push q.pillar x with
      | none => none
      | some ps1 => collectScores qs ps1

/-- Source: the expression
`scores.length > 0 ? Math.round((scores.reduce((a, b) => a + b, 0) / scores.length) * 100) / 100 : null`
(lines 443 and 450), the sum, the quotient and the products taken exactly; for their
evaluation in binary64 see `roundedMean64`. -/
def roundedMean (scores : List ℚ) : Option ℚ :=
  if scores.length > 0 then
    some ((Math.round (scores.foldl (fun a b => a + b) 0 / scores.length * 100) : ℚ) / 100)
  else none

/-- Source: `recalcDomainAggregates(data)`, lines 428-452.  The result is the
mutated `data`; `none` is the `TypeError` of a scored question whose pillar has no
bucket, thrown before anything of `data` is written. -/
def recalcDomainAggregates (data : DomainData) : Option DomainData :=
  match collectScores data.questions (pillarOrder.map (fun p => (p, []))) with
  | none => none
  | some pillarScores =>
    let pillars := data.pillars.map (fun p =>
      let scores := (pillarScores.lookup p.name.key).getD []
      let avg := roundedMean scores
      { p with avg_score := avg, band := getBand (scoreValue avg), scored_count := scores.length })
    let allScores := data.questions.filterMap (fun q => q.score)
    let overall := roundedMean allScores
    some { data with
      pillars := pillars, overall_score := overall, overall_band := getBand (scoreValue overall) }

/-! ## Loading a domain and changing a score -/

/-- Source: `scoreOverrides[domain] || {}` (line 402). -/
def overridesOf (store : OverrideStore) (domain : String) : Overrides :=
  (store.lookup domain).getD []

/-- Source: step 2 of `handleScoreChange` and the body of the override loop of
`loadDomainDetail`: the first question with id `qId` gets `score` and `band`. -/
def setQuestionScore (questions : List Question) (qId : String) (score : Option ℚ)
    (band : Band) : List Question :=
  updateFirst (fun q => decide (q.id = qId)) (fun q => { q with score := score, band := band })
    questions

/-- Source: step 2 of `handleScoreChange` (lines 583-588) on the snapshot `data`. -/
def updateQuestion (data : DomainData) (qId : String) (score : Option ℚ) (band : Band) :
    DomainData :=
  { data with questions := setQuestionScore data.questions qId score band }

/-- Source: the loop `Object.keys(overrides).forEach(qId => ...)` of
`loadDomainDetail` (lines 403-409).  The keys are visited in the order of the list;
the order has no influence on the result, since every key updates the first question
of its own id. -/
def applyOverrides (questions : List Question) (overrides : Overrides) : List Question :=
  (overrides.map (fun e => e.1)).foldl
    (fun qs qId =>
      let v := (overrides.lookup qId).join
      setQuestionScore qs qId v (getBand (scoreValue v)))
    questions

/-- Source: `loadDomainDetail(domain)`, lines 398-425, where `data` is the
answer of `fetchDomainDetail(domain)`.  When the aggregation throws, the promise is
rejected before `currentDomainData` is assigned and the state is as before. -/
def loadDomainDetail (st : State) (domain : String) (data : DomainData) : Outcome :=
  let overrides := overridesOf st.scoreOverrides domain
  let data1 := { data with questions := applyOverrides data.questions overrides }
  match recalcDomainAggregates data1 with
  | none => { state := st, threw := true }
  | some data2 => { state := { st with currentDomainData := some data2 }, threw := false }

/-- Source: `if (newScore !== null) o[qId] = newScore; else delete o[qId];` on the
overrides `o` of one domain (lines 593-597). -/
def setOverride (o : Overrides) (qId : String) (newScore : Option ℚ) : Overrides :=
  match newScore with
  | some x => objSet o qId (some x)
  | none => objDelete o qId

/-- Source: step 3 of `handleScoreChange` (lines 590-597). -/
def storeOverride (store : OverrideStore) (domain qId : String) (newScore : Option ℚ) :
    OverrideStore :=
  let store1 := if (store.lookup domain).isNone then objSet store domain [] else store
  objSet store1 domain (setOverride ((store1.lookup domain).getD []) qId newScore)

/-- Source: step 9 of `handleScoreChange` (lines 623-628) on `allDomains`: the entry
`findIndex` finds gets the overall score and band and a copy of every pillar object. -/
def updateSummary (allDomains : List SummaryEntry) (data : DomainData) : List SummaryEntry :=
  updateFirst (fun d => decide (d.domain = data.domain))
    (fun d => { d with
      overall_score := data.overall_score,
      overall_band := data.overall_band,
      pillars := data.pillars.map (fun p =>
        Pillar.mk p.name p.avg_score p.band p.scored_count p.total_count) })
    allDomains

/-- Source: step 10 of `handleScoreChange` (lines 639-648) on `overviewData`: the row
`find` returns gets `overall` and one cell per pillar object of the snapshot. -/
def updateMatrix (overviewData : Option Overview) (data : DomainData) : Option Overview :=
  match overviewData with
  | none => none
  | some ov =>
    let matrix :=
      updateFirst (fun r => decide (r.domain = data.domain))
        (fun r => data.pillars.foldl (fun row p => row.set p.name p.avg_score)
          { r with overall := data.overall_score })
        ov.matrix
    some { ov with matrix := matrix }

/-- Source: `val ? parseInt(val, 10) : null` as a score, for the integer `parsed`
the dropdown value parses to (`none` for the empty value). -/
def parsedScore (parsed : Option ℤ) : Option ℚ :=
  parsed.map (fun n => (n : ℚ))

/-- Source: `handleScoreChange(selectEl)`, lines 566-649, with `qId` the
`data-qid` of the dropdown and `parsed` the integer `parseInt(val, 10)` of its
value (`none` for the empty value, for which `newScore` is `null`).  The call of
`saveOverride` is logged in `saved`; it is made before the aggregation, so also when
the aggregation throws, in which case steps 9 and 10 are not reached. -/
def handleScoreChange (st : State) (qId : String) (parsed : Option ℤ) : Outcome :=
  let newScore : Option ℚ := parsedScore parsed
  let band := getBand (scoreValue newScore)
  match st.currentDomainData with
  | none => { state := st, threw := false }
  | some data =>
    let data1 := updateQuestion data qId newScore band
    let domain := data.domain
    let store := storeOverride st.scoreOverrides domain qId newScore
    let saved := st.saved ++ [(domain, qId, newScore)]
    match recalcDomainAggregates data1 with
    | none =>
      { state := { st with currentDomainData := some data1, scoreOverrides := store, saved := saved },
        threw := true }
    | some data2 =>
      { state :=
          { allDomains := updateSummary st.allDomains data2,
            overviewData := updateMatrix st.overviewData data2,
            currentDomainData := some data2,
            scoreOverrides := store,
            saved := saved },
        threw := false }

/-- Source: `buildScoreDropdown`, lines 550-557: the values of the options of a score
dropdown as `handleScoreChange` parses them, the empty value and 1 to 5. -/
def dropdownValues : List (Option ℤ) :=
  none :: (List.range' 1 5).map (fun i => some (i : ℤ))

/-- The invariant of the override store: no entry holds `null`. -/
def NoNullEntry (store : OverrideStore) : Prop :=
  ∀ e ∈ store, ∀ e1 ∈ e.2, e1.2 ≠ none

instance (store : OverrideStore) : Decidable (NoNullEntry store) := by
  unfold NoNullEntry
  infer_instance

/-! ## Reference definitions, written from the specification -/

/-- The non-null scores of a list of questions (the set `S` of property P1). -/
def specScores (qs : List Question) : List ℚ :=
  (qs.map (fun q => q.score)).reduceOption

/-- The questions of one pillar. -/
def specPillarQuestions (qs : List Question) (name : PillarName) : List Question :=
  qs.filter (fun q => decide (q.pillar = name.key))

/-- Arithmetic mean. -/
def specMean (S : List ℚ) : ℚ := S.sum / S.length

/-- Rounding to 2 decimals: the nearest multiple of 1/100. -/
def specRound2 (x : ℚ) : ℚ := (round (x * 100) : ℚ) / 100

/-- The mean rounded once to 2 decimals, `null` for no scores. -/
def specAverage (S : List ℚ) : Option ℚ :=
  match S with
  | [] => none
  | _ :: _ => some (specRound2 (specMean S))

/-- Reference `scored_count` (section 4.3, step 2): the number of questions of the
pillar with a non-null score. -/
def specScoredCount (qs : List Question) (name : PillarName) : Nat :=
  qs.countP (fun q => decide (q.pillar = name.key) && q.score.isSome)

/-- Reference `total_count` (section 4.3, step 2): the number of questions of the
pillar. -/
def specTotalCount (qs : List Question) (name : PillarName) : Nat :=
  qs.countP (fun q => decide (q.pillar = name.key))

/-- Reference `applyOverrides` (section 4.3): every question whose id has an override
entry gets the override value as score and `classify` of it as band, every other
question is kept. -/
def specApplyOverrides (qs : List Question) (overrides : Overrides) : List Question :=
  qs.map (fun q =>
    match overrides.lookup q.id with
    | some v => { q with score := v, band := classify v }
    | none => q)

/-- The aggregates the reference definitions give, written into `data`: for every
pillar of the pillar list `avg_score`, `band` and `scored_count`, and for the domain
`overall_score` and `overall_band`.  Everything else is kept. -/
def withReferenceAggregates (data : DomainData) : DomainData :=
  { data with
    pillars := data.pillars.map (fun p =>
      { p with
        avg_score := specAverage (specScores (specPillarQuestions data.questions p.name)),
        band := classify (specAverage (specScores (specPillarQuestions data.questions p.name))),
        scored_count := (specScores (specPillarQuestions data.questions p.name)).length }),
    overall_score := specAverage (specScores data.questions),
    overall_band := classify (specAverage (specScores data.questions)) }

/-! ## The aggregation in binary64 arithmetic

The engine evaluates the arithmetic of lines 443 and 450 on binary64 numbers.  This
section repeats `roundedMean`, `recalcDomainAggregates`, `loadDomainDetail` and
`handleScoreChange` with every arithmetic operation rounded to binary64; nothing else
differs from the exact evaluation above. -/

/-- Source: the expression
`scores.length > 0 ? Math.round((scores.reduce((a, b) => a + b, 0) / scores.length) * 100) / 100 : null`
(lines 443 and 450), every operation returning the binary64 value nearest to its exact
result: each `a + b` of the reduction, the division by `scores.length`, the product
with 100 and the division by 100.  `Math.round` is exact on a binary64 value. -/
def roundedMean64 (scores : List ℚ) : Option ℚ :=
  if scores.length > 0 then
    some (binary64 ((Math.round (binary64 (binary64
      (scores.foldl (fun a b => binary64 (a + b)) 0 / scores.length) * 100)) : ℚ) / 100))
  else none

/-- Source: `recalcDomainAggregates(data)`, lines 428-452, in binary64 arithmetic.  The
result is the mutated `data`; `none` is the `TypeError` of a scored question whose pillar
has no bucket, thrown before anything of `data` is written. -/
def recalcDomainAggregates64 (data : DomainData) : Option DomainData :=
  match collectScores data.questions (pillarOrder.map (fun p => (p, []))) with
  | none => none
  | some pillarScores =>
    let pillars := data.pillars.map (fun p =>
      let scores := (pillarScores.lookup p.name.key).getD []
      let avg := roundedMean64 scores
      { p with avg_score := avg, band := getBand (scoreValue avg), scored_count := scores.length })
    let allScores := data.questions.filterMap (fun q => q.score)
    let overall := roundedMean64 allScores
    some { data with
      pillars := pillars, overall_score := overall, overall_band := getBand (scoreValue overall) }

/-- Source: `loadDomainDetail(domain)`, lines 398-425, in binary64 arithmetic, where
`data` is the answer of `fetchDomainDetail(domain)`.  When the aggregation throws, the
promise is rejected before `currentDomainData` is assigned and the state is as before. -/
def loadDomainDetail64 (st : State) (domain : String) (data : DomainData) : Outcome :=
  let overrides := overridesOf st.scoreOverrides domain
  let data1 := { data with questions := applyOverrides data.questions overrides }
  match recalcDomainAggregates64 data1 with
  | none => { state := st, threw := true }
  | some data2 => { state := { st with currentDomainData := some data2 }, threw := false }

/-- Source: `handleScoreChange(selectEl)`, lines 566-649, in binary64 arithmetic, with
`qId` the `data-qid` of the dropdown and `parsed` the integer `parseInt(val, 10)` of its
value (`none` for the empty value, for which `newScore` is `null`).  The call of
`saveOverride` is logged in `saved`; it is made before the aggregation, so also when
the aggregation throws, in which case steps 9 and 10 are not reached. -/
def handleScoreChange64 (st : State) (qId : String) (parsed : Option ℤ) : Outcome :=
  let newScore : Option ℚ := parsedScore parsed
  let band := getBand (scoreValue newScore)
  match st.currentDomainData with
  | none => { state := st, threw := false }
  | some data =>
    let data1 := updateQuestion data qId newScore band
    let domain := data.domain
    let store := storeOverride st.scoreOverrides domain qId newScore
    let saved := st.saved ++ [(domain, qId, newScore)]
    match recalcDomainAggregates64 data1 with
    | none =>
      { state := { st with currentDomainData := some data1, scoreOverrides := store, saved := saved },
        threw := true }
    | some data2 =>
      { state :=
          { allDomains := updateSummary st.allDomains data2,
            overviewData := updateMatrix st.overviewData data2,
            currentDomainData := some data2,
            scoreOverrides := store,
            saved := saved },
        threw := false }

/-- The aggregates of the binary64 evaluation, written into `data`: for every pillar of
the pillar list `avg_score`, `band` and `scored_count`, and for the domain
`overall_score` and `overall_band`.  Everything else is kept. -/
def withAggregates64 (data : DomainData) : DomainData :=
  { data with
    pillars := data.pillars.map (fun p =>
      { p with
        avg_score := roundedMean64 (specScores (specPillarQuestions data.questions p.name)),
        band := classify (roundedMean64 (specScores (specPillarQuestions data.questions p.name))),
        scored_count := (specScores (specPillarQuestions data.questions p.name)).length }),
    overall_score := roundedMean64 (specScores data.questions),
    overall_band := classify (roundedMean64 (specScores data.questions)) }

/-- The whole-number scores: 0 and the five values of the score dropdown. -/
def wholeScores : List ℚ := [0, 1, 2, 3, 4, 5]

/-- The stored value `r` agrees with the reference average of the scores `S` as far as
binary64 allows: `r` is the binary64 number nearest to the mean of `S` rounded to 2
decimals, or, only when the scaled mean lies exactly halfway between two integers, the
binary64 number nearest to the hundredth below it; `r` is `null` when `S` is empty. -/
def AgreesUpToTie (S : List ℚ) (r : Option ℚ) : Prop :=
  r = (specAverage S).map binary64 ∨
    ((∃ j : ℤ, specMean S * 100 + 1 / 2 = j) ∧
      r = (specAverage S).map (fun a => binary64 (a - 1 / 100)))

/-- The stored value `r` lies next to the mean of the scores `S`: `r` is the binary64
number nearest to a hundredth `k / 100` whose distance from the mean is at most
`0.005 + 0.00000001`; `r` is `null` when `S` is empty. -/
def NearReference (S : List ℚ) (r : Option ℚ) : Prop :=
  (S = [] ∧ r = none) ∨
    ∃ k : ℤ, r = some (binary64 ((k : ℚ) / 100)) ∧
      |(k : ℚ) / 100 - specMean S| ≤ 1 / 200 + 1 / 100000000

/-! ## Example data: the scenario of the specification -/

/-- A question with the band of its score. -/
def mkQuestion (id pillar : String) (score : Option ℚ) : Question :=
  { id := id, pillar := pillar, text := "", score := score, band := classify score }

/-- A pillar object that has not been aggregated yet. -/
def mkPillar (name : PillarName) (total : Nat) : Pillar :=
  { name := name, avg_score := none, band := .NotAssessed, scored_count := 0, total_count := total }

/-- Domain "sales": two questions scored 3 and 5 in "Data as a Product", one
unscored question in "Domain Ownership". -/
def salesDomain : DomainData :=
  { domain := "sales",
    questions :=
      [mkQuestion "Q1" "Data as a Product" (some 3),
       mkQuestion "Q2" "Data as a Product" (some 5),
       mkQuestion "Q3" "Domain Ownership" none],
    pillars :=
      [mkPillar .DomainOwnership 1, mkPillar .DataAsAProduct 2,
       mkPillar .SelfServeDataPlatform 0, mkPillar .FederatedGovernance 0],
    overall_score := none,
    overall_band := .NotAssessed }

/-- The aggregates of "sales": "Data as a Product" 4.00, overall 4.00. -/
def salesRecomputed : DomainData :=
  { salesDomain with
    pillars :=
      [mkPillar .DomainOwnership 1,
       { name := .DataAsAProduct, avg_score := some 4, band := .Managed, scored_count := 2,
         total_count := 2 },
       mkPillar .SelfServeDataPlatform 0, mkPillar .FederatedGovernance 0],
    overall_score := some 4,
    overall_band := .Managed }

/-- Domain "sales" with a fourth question, scored 4, whose pillar "Data Quality" is
not one of the four fixed names. -/
def malformedSales : DomainData :=
  { salesDomain with
    questions := salesDomain.questions ++ [mkQuestion "Q4" "Data Quality" (some 4)] }

/-- Domain "sales" as `malformedSales`, the fourth question unscored. -/
def malformedUnscored : DomainData :=
  { salesDomain with
    questions := salesDomain.questions ++ [mkQuestion "Q4" "Data Quality" none] }

/-- Domain "sales" whose "Data as a Product" pillar object arrives with
`scored_count` 7 and `total_count` 0. -/
def staleCounts : DomainData :=
  { salesDomain with
    pillars :=
      [mkPillar .DomainOwnership 1,
       { name := .DataAsAProduct, avg_score := none, band := .NotAssessed, scored_count := 7,
         total_count := 0 }] }

/-- Domain "hr" with a single question whose computed score is 3.456. -/
def fractionalDomain : DomainData :=
  { domain := "hr",
    questions := [mkQuestion "Q1" "Domain Ownership" (some 3.456)],
    pillars := [mkPillar .DomainOwnership 1],
    overall_score := none,
    overall_band := .NotAssessed }

/-- Domain "finance" as fetched: one question, scored 2. -/
def financeDomain : DomainData :=
  { domain := "finance",
    questions := [mkQuestion "Q1" "Domain Ownership" (some 2)],
    pillars := [mkPillar .DomainOwnership 1],
    overall_score := none,
    overall_band := .NotAssessed }

/-- The matrix of the overview, sorted by overall score: "sales" and "finance". -/
def salesMatrix : Overview :=
  { matrix :=
      [{ domain := "sales", domainOwnership := none, dataAsAProduct := some 4,
         selfServeDataPlatform := none, federatedGovernance := none, overall := some 4 },
       { domain := "finance", domainOwnership := some 2, dataAsAProduct := none,
         selfServeDataPlatform := none, federatedGovernance := none, overall := some 2 }] }

/-- A session in which "sales" is open, next to a second domain "finance" in the
summary cache and the matrix; no override has been made yet. -/
def salesState : State :=
  { allDomains :=
      [{ domain := "finance", overall_score := some 2, overall_band := .Developing,
         pillars := [{ name := .DomainOwnership, avg_score := some 2, band := .Developing,
                       scored_count := 1, total_count := 1 }] },
       { domain := "sales", overall_score := some 4, overall_band := .Managed,
         pillars := salesRecomputed.pillars }],
    overviewData := some salesMatrix,
    currentDomainData := some salesRecomputed,
    scoreOverrides := [],
    saved := [] }

/-- Domain "ops": forty questions of "Domain Ownership", `Q1` to `Q39` scored 1 and
`Q40` with the score `last`. -/
def fortyQuestions (last : Option ℚ) : DomainData :=
  { domain := "ops",
    questions :=
      (List.range 39).map (fun i => mkQuestion ("Q" ++ toString (i + 1)) "Domain Ownership" (some 1))
        ++ [mkQuestion "Q40" "Domain Ownership" last],
    pillars := [mkPillar .DomainOwnership 40],
    overall_score := none,
    overall_band := .NotAssessed }

/-- The aggregates of "ops" while `Q40` is unscored: "Domain Ownership" 1.00, overall
1.00. -/
def fortyRecomputed : DomainData :=
  { fortyQuestions none with
    pillars :=
      [{ name := .DomainOwnership, avg_score := some 1, band := .Initial, scored_count := 39,
         total_count := 40 }],
    overall_score := some 1,
    overall_band := .Initial }

/-- A session in which "ops" is open with `Q40` unscored; no override has been made. -/
def fortyState : State :=
  { allDomains :=
      [{ domain := "ops", overall_score := some 1, overall_band := .Initial,
         pillars := fortyRecomputed.pillars }],
    overviewData := none,
    currentDomainData := some fortyRecomputed,
    scoreOverrides := [],
    saved := [] }

/-- The session after the dropdown of "Q1" in "sales" is set to 5. -/
def salesAfterSet : State := (handleScoreChange64 salesState "Q1" (some 5)).state

/-- The session after the dropdown of "Q1" is then set to its empty value. -/
def salesAfterClear : State := (handleScoreChange64 salesAfterSet "Q1" none).state

/-- The session after "sales" is then loaded again from the fetched detail. -/
def salesReloaded : State := (loadDomainDetail64 salesAfterClear "sales" salesDomain).state

/-! ## Band classifier -/

theorem getBand_num (x : ℚ) :
    getBand (.num x) =
      if x ≥ 4.5 then .Optimized
      else if x ≥ 3.5 then .Managed
      else if x ≥ 2.5 then .Defined
      else if x ≥ 1.5 then .Developing
      else .Initial := by
  unfold getBand
  have h : ¬ ((Value.num x).falsy = true ∧ (Value.num x).isZero = false) := by
    rintro ⟨h1, h2⟩
    simp only [Value.falsy, Value.isZero] at h1 h2
    rw [h1] at h2
    cases h2
  rw [if_neg h]
  rfl

theorem getBand_scoreValue (s : Option ℚ) : getBand (scoreValue s) = classify s := by
  cases s with
  | none => rfl
  | some x => simp only [scoreValue, getBand_num, classify, ge_iff_le]


theorem parseFloat_of_falsy {v : Value} (h1 : v.falsy = true) (h2 : v.isZero = false) :
    v.parseFloat = Parsed.nan := by
  cases v with
  | null => rfl
  | undefined => rfl
  | nan => rfl
  | num x =>
    simp only [Value.falsy, Value.isZero] at h1 h2
    rw [h1] at h2
    cases h2
  | inf negative => cases h1
  | bool b => rfl
  | str s =>
    simp only [Value.falsy, decide_eq_true_eq] at h1
    subst h1
    rfl
  | object => cases h1
  | array elems => cases h1

/-- The band `getBand` returns is a function of what `parseFloat` reads from its argument. -/
theorem getBand_eq_classifyParsed (v : Value) : getBand v = classifyParsed v.parseFloat := by
  unfold getBand
  by_cases h : v.falsy = true ∧ v.isZero = false
  · rw [if_pos h, parseFloat_of_falsy h.1 h.2]
    rfl
  · rw [if_neg h]
    cases v.parseFloat with
    | nan => rfl
    | negInf => rfl
    | posInf => rfl
    | fin x => simp only [classifyParsed, classify, ge_iff_le]

/-- Counterexample to C3 as stated: the string `5abc` and the array `[4.6]` are not
numbers, and `getBand` returns Optimized for both, not Not Assessed. -/
theorem getBand_reads_numeric_prefix :
    getBand (.str "5abc") = Band.Optimized ∧
    getBand (.array [.num 4.6]) = Band.Optimized ∧
    Band.Optimized ≠ Band.NotAssessed := by
  decide!

/-- Claim C3, amended: `getBand` is total and returns the band of the number `parseFloat`
reads from its argument.  A number `x` goes to Optimized if `x >= 4.5`, else Managed if
`x >= 3.5`, else Defined if `x >= 2.5`, else Developing if `x >= 1.5`, else Initial (so
also 0 and every `x < 1.5`); `null`, `undefined`, `NaN`, a boolean, a plain object, the
empty string, the empty array and every other input from which `parseFloat` reads no
number go to Not Assessed; an input that is not a number but starts with one, such as the
string `5abc` or the array `[4.6]`, gets the band of that number.  The boundary values of
property P4 are classified as listed. -/
theorem getBand_by_parseFloat :
    (∀ v : Value, getBand v = classifyParsed v.parseFloat) ∧
    (∀ x : ℚ, getBand (.num x) =
      if x ≥ 4.5 then Band.Optimized
      else if x ≥ 3.5 then Band.Managed
      else if x ≥ 2.5 then Band.Defined
      else if x ≥ 1.5 then Band.Developing
      else Band.Initial) ∧
    (∀ x : ℚ, x < 1.5 → getBand (.num x) = Band.Initial) ∧
    (∀ v : Value, v.parseFloat = Parsed.nan → getBand v = Band.NotAssessed) ∧
    (∀ (v : Value) (x : ℚ), v.parseFloat = Parsed.fin x → getBand v = classify (some x)) ∧
    getBand .null = Band.NotAssessed ∧
    getBand .undefined = Band.NotAssessed ∧
    getBand .nan = Band.NotAssessed ∧
    (∀ b : Bool, getBand (.bool b) = Band.NotAssessed) ∧
    getBand .object = Band.NotAssessed ∧
    getBand (.str "") = Band.NotAssessed ∧
    getBand (.str "abc") = Band.NotAssessed ∧
    getBand (.array []) = Band.NotAssessed ∧
    getBand (.str "5abc") = Band.Optimized ∧
    getBand (.array [.num 4.6]) = Band.Optimized ∧
    getBand (.num 4.5) = Band.Optimized ∧
    getBand (.num 4.49) = Band.Managed ∧
    getBand (.num 3.5) = Band.Managed ∧
    getBand (.num 2.5) = Band.Defined ∧
    getBand (.num 1.5) = Band.Developing ∧
    getBand (.num 1.49) = Band.Initial ∧
    getBand (.num 0) = Band.Initial ∧
    getBand (scoreValue none) = Band.NotAssessed := by
  refine ⟨getBand_eq_classifyParsed, getBand_num, ?_, ?_, ?_, rfl, rfl, rfl, ?_, rfl, by decide!,
    by decide!, rfl, by decide!, by decide!, ?_, ?_, ?_, ?_, ?_, ?_, ?_, rfl⟩
  · intro x hx
    rw [getBand_num]
    have h1 : ¬ x ≥ 4.5 := by intro h; norm_num at h hx; linarith
    have h2 : ¬ x ≥ 3.5 := by intro h; norm_num at h hx; linarith
    have h3 : ¬ x ≥ 2.5 := by intro h; norm_num at h hx; linarith
    have h4 : ¬ x ≥ 1.5 := by intro h; norm_num at h hx; linarith
    simp only [h1, h2, h3, h4, if_false]
  · intro v hv
    rw [getBand_eq_classifyParsed, hv]
    rfl
  · intro v x hv
    rw [getBand_eq_classifyParsed, hv]
    rfl
  · intro b
    rw [getBand_eq_classifyParsed]
    rfl
  all_goals (rw [getBand_num]; norm_num)

/-- The witness of the amended C3: the value 1.49 lies below 1.5, the text `abc` has no
numeric prefix, and from the text `5abc` the number 5 is read. -/
theorem getBand_by_parseFloat_witness :
    getBand (.num 1.49) = Band.Initial ∧
    getBand (.str "abc") = Band.NotAssessed ∧
    getBand (.str "5abc") = classify (some 5) :=
  ⟨getBand_by_parseFloat.2.2.1 1.49 (by norm_num),
   getBand_by_parseFloat.2.2.2.1 (.str "abc") (by decide!),
   getBand_by_parseFloat.2.2.2.2.1 (.str "5abc") 5 (by decide!)⟩

/-! ## Aggregation -/

theorem lookup_cons_ite {β : Type} (a k : String) (b : β) (es : List (String × β)) :
    List.lookup k ((a, b) :: es) = if k = a then some b else List.lookup k es := by
  by_cases h : k = a
  · subst h
    simp [List.lookup]
  · have h2 : (k == a) = false := by simpa using h
    simp [List.lookup, h2, h]

theorem lookup_map_append (ps : PillarScores) (k k1 : String) (x : ℚ) :
    (ps.map (fun e => if e.1 = k then (e.1, e.2 ++ [x]) else e)).lookup k1 =
      if k1 = k then (ps.lookup k1).map (fun l => l ++ [x]) else ps.lookup k1 := by
  induction ps with
  | nil => simp
  | cons e ps ih =>
    obtain ⟨a, l⟩ := e
    by_cases ha : a = k
    · subst ha
      simp only [List.map_cons, if_true, lookup_cons_ite, ih]
      by_cases hk : k1 = a
      · simp [hk]
      · simp [hk]
    · simp only [List.map_cons, if_neg ha, lookup_cons_ite, ih]
      by_cases hk : k1 = a
      · have : ¬ k1 = k := fun e => ha (hk ▸ e)
        simp [hk, ha]
      · simp [hk]

theorem push_lookup {ps ps1 : PillarScores} {k : String} {x : ℚ}
    (h : ps.push k x = some ps1) (k1 : String) :
    ps1.lookup k1 = if k1 = k then (ps.lookup k1).map (fun l => l ++ [x]) else ps.lookup k1 := by
  unfold PillarScores.push at h
  split at h
  · cases h
  · cases h
    exact lookup_map_append ps k k1 x

theorem push_isSome {ps : PillarScores} {k : String} (x : ℚ) (h : (ps.lookup k).isSome) :
    ∃ ps1, ps.push k x = some ps1 := by
  unfold PillarScores.push
  cases hl : ps.lookup k with
  | none => simp [hl] at h
  | some l => exact ⟨_, rfl⟩

theorem collectScores_lookup (qs : List Question) :
    ∀ ps ps1 : PillarScores, collectScores qs ps = some ps1 →
      ∀ k, ps1.lookup k =
        (ps.lookup k).map
          (fun l => l ++ (qs.filter (fun q => decide (q.pillar = k))).filterMap (fun q => q.score)) := by
  induction qs with
  | nil =>
    intro ps ps1 h k
    simp only [collectScores, Option.some.injEq] at h
    subst h
    simp
  | cons q qs ih =>
    intro ps ps1 h k
    cases hs : q.score with
    | none =>
      simp only [collectScores, hs] at h
      rw [ih ps ps1 h k]
      by_cases hk : q.pillar = k
      · simp [List.filter_cons, hk, hs]
      · simp [List.filter_cons, hk]
    | some x =>
      simp only [collectScores, hs] at h
      cases ha : ps.push q.pillar x with
      | none => simp [ha] at h
      | some psa =>
        simp only [ha] at h
        rw [ih psa ps1 h k, push_lookup ha]
        by_cases hk : q.pillar = k
        · subst hk
          simp [List.filter_cons, hs, Option.map_map, Function.comp_def]
        · have hk2 : ¬ k = q.pillar := fun e => hk e.symm
          simp [List.filter_cons, hk, hk2]

theorem collectScores_isSome (qs : List Question) :
    ∀ ps : PillarScores,
      (∀ q ∈ qs, q.score ≠ none → (ps.lookup q.pillar).isSome) →
      ∃ ps1, collectScores qs ps = some ps1 := by
  induction qs with
  | nil => exact fun ps _ => ⟨ps, rfl⟩
  | cons q qs ih =>
    intro ps h
    cases hs : q.score with
    | none =>
      obtain ⟨ps1, h1⟩ := ih ps (fun q1 hq1 => h q1 (List.mem_cons_of_mem _ hq1))
      exact ⟨ps1, by simp [collectScores, hs, h1]⟩
    | some x =>
      have hsome : (ps.lookup q.pillar).isSome := h q (List.mem_cons_self _ _) (by simp [hs])
      obtain ⟨psa, ha⟩ := push_isSome x hsome
      have hkeys : ∀ q1 ∈ qs, q1.score ≠ none → (psa.lookup q1.pillar).isSome := by
        intro q1 hq1 hne
        have := h q1 (List.mem_cons_of_mem _ hq1) hne
        rw [push_lookup ha]
        split
        · simpa using this
        · exact this
      obtain ⟨ps1, h1⟩ := ih psa hkeys
      exact ⟨ps1, by simp [collectScores, hs, ha, h1]⟩

theorem lookup_pillarOrder (k : String) :
    (pillarOrder.map (fun p => (p, ([] : List ℚ)))).lookup k =
      if k ∈ pillarOrder then some [] else none := by
  simp only [pillarOrder, List.map_cons, List.map_nil, lookup_cons_ite, List.lookup_nil,
    List.mem_cons, List.mem_singleton, List.not_mem_nil, or_false]
  by_cases h1 : k = "Domain Ownership"
  · simp [h1]
  by_cases h2 : k = "Data as a Product"
  · simp [h2]
  by_cases h3 : k = "Self-Serve Data Platform"
  · simp [h3]
  by_cases h4 : k = "Federated Governance"
  · simp [h4]
  simp [h1, h2, h3, h4]

theorem key_mem_pillarOrder (n : PillarName) : n.key ∈ pillarOrder := by
  cases n <;> simp [PillarName.key, pillarOrder]

theorem foldl_add_eq_sum (l : List ℚ) : l.foldl (fun a b => a + b) 0 = l.sum := by
  have h : ∀ (l : List ℚ) (a : ℚ), l.foldl (fun a b => a + b) a = a + l.sum := by
    intro l
    induction l with
    | nil => intro a; simp
    | cons b l ih => intro a; simp [ih, add_assoc]
  simpa using h l 0

theorem roundedMean_eq_specAverage (S : List ℚ) : roundedMean S = specAverage S := by
  cases S with
  | nil => rfl
  | cons a S =>
    simp only [roundedMean, specAverage, specRound2, specMean, Math.round, foldl_add_eq_sum,
      round_eq, List.length_cons, Nat.succ_pos, gt_iff_lt, if_true]

/-- The reference rounding returns a multiple of 1/100 at distance at most 1/200. -/
theorem specRound2_nearest (x : ℚ) :
    (∃ k : ℤ, specRound2 x = (k : ℚ) / 100) ∧ |x - specRound2 x| ≤ 1 / 200 := by
  refine ⟨⟨round (x * 100), rfl⟩, ?_⟩
  have h := abs_sub_round (x * 100)
  have e : x - specRound2 x = (x * 100 - (round (x * 100) : ℚ)) / 100 := by
    unfold specRound2
    ring
  rw [e, abs_div]
  have h100 : |(100 : ℚ)| = 100 := abs_of_pos (by norm_num)
  rw [h100, div_le_iff₀ (by norm_num : (0 : ℚ) < 100)]
  calc |x * 100 - (round (x * 100) : ℚ)| ≤ 1 / 2 := h
    _ = 1 / 200 * 100 := by norm_num

theorem specScores_eq (qs : List Question) : specScores qs = qs.filterMap (fun q => q.score) := by
  simp [specScores, List.reduceOption, List.filterMap_map, Function.comp_def]

/-- The buckets a successful loop ends with hold the reference score lists. -/
theorem collected_bucket {qs : List Question} {ps : PillarScores}
    (h : collectScores qs (pillarOrder.map (fun p => (p, []))) = some ps) (n : PillarName) :
    (ps.lookup n.key).getD [] = specScores (specPillarQuestions qs n) := by
  rw [collectScores_lookup qs _ ps h, lookup_pillarOrder, if_pos (key_mem_pillarOrder n)]
  simp only [Option.map_some', Option.getD_some, List.nil_append, specScores_eq,
    specPillarQuestions]

/-- Whenever `recalcDomainAggregates` returns, it has written the reference aggregates;
it throws exactly when the bucket loop does. -/
theorem recalc_eq_map (data : DomainData) :
    recalcDomainAggregates data =
      (collectScores data.questions (pillarOrder.map (fun p => (p, [])))).map
        (fun _ => withReferenceAggregates data) := by
  cases h : collectScores data.questions (pillarOrder.map (fun p => (p, []))) with
  | none => simp only [recalcDomainAggregates, h, Option.map_none']
  | some ps =>
    simp only [recalcDomainAggregates, h, Option.map_some', withReferenceAggregates,
      collected_bucket h, roundedMean_eq_specAverage, getBand_scoreValue, specScores_eq]

theorem recalc_of_fixed_pillars (data : DomainData)
    (hq : ∀ q ∈ data.questions, q.pillar ∈ pillarOrder) :
    recalcDomainAggregates data = some (withReferenceAggregates data) := by
  obtain ⟨ps, hps⟩ := collectScores_isSome data.questions (pillarOrder.map (fun p => (p, [])))
    (fun q hmem _ => by rw [lookup_pillarOrder, if_pos (hq q hmem)]; rfl)
  rw [recalc_eq_map, hps]
  rfl

theorem recalc_some {data d : DomainData} (h : recalcDomainAggregates data = some d) :
    d = withReferenceAggregates data := by
  rw [recalc_eq_map] at h
  cases hc : collectScores data.questions (pillarOrder.map (fun p => (p, []))) with
  | none => simp [hc] at h
  | some ps =>
    simp only [hc, Option.map_some', Option.some.injEq] at h
    exact h.symm

/-! ## Binary64 arithmetic -/

theorem log2Fuel_spec : ∀ (fuel n : Nat), n ≤ fuel → 1 ≤ n →
    2 ^ log2Fuel fuel n ≤ n ∧ n < 2 ^ (log2Fuel fuel n + 1) := by
  intro fuel
  induction fuel with
  | zero =>
    intro n h0 h1
    omega
  | succ fuel ih =>
    intro n hle h1
    unfold log2Fuel
    by_cases h2 : n < 2
    · simp only [h2, if_true]
      constructor <;> omega
    · simp only [h2, if_false]
      have hhalf : n / 2 ≤ fuel := by omega
      have hpos : 1 ≤ n / 2 := by omega
      obtain ⟨ha, hb⟩ := ih (n / 2) hhalf hpos
      constructor
      · rw [pow_succ]
        omega
      · rw [pow_succ]
        omega

theorem natLog2_le {n : Nat} (h : 1 ≤ n) : 2 ^ natLog2 n ≤ n :=
  (log2Fuel_spec n n le_rfl h).1

theorem natLog2_lt {n : Nat} (h : 1 ≤ n) : n < 2 ^ (natLog2 n + 1) :=
  (log2Fuel_spec n n le_rfl h).2

theorem abs_eq_natAbs_div_den (x : ℚ) : |x| = (x.num.natAbs : ℚ) / (x.den : ℚ) := by
  have h := Rat.num_div_den x
  conv_lhs => rw [← h]
  rw [abs_div, Nat.abs_cast]
  congr 1
  rw [← Int.cast_abs, Int.abs_eq_natAbs, Int.cast_natCast]

/-- The power of two `floorLog2` names does not exceed `|x|`. -/
theorem floorLog2_le {x : ℚ} (hx : x ≠ 0) : (2 : ℚ) ^ floorLog2 x ≤ |x| := by
  unfold floorLog2
  split
  · assumption
  · have ha : 1 ≤ x.num.natAbs := by
      have : x.num ≠ 0 := Rat.num_ne_zero.2 hx
      have := Int.natAbs_pos.2 this
      omega
    have hb : 1 ≤ x.den := x.den_pos
    have h1 : ((2 : ℚ) ^ natLog2 x.num.natAbs) ≤ (x.num.natAbs : ℚ) := by
      exact_mod_cast natLog2_le ha
    have h2 : ((x.den : ℚ)) ≤ (2 : ℚ) ^ (natLog2 x.den + 1) := by
      exact_mod_cast (natLog2_lt hb).le
    have hdpos : (0 : ℚ) < x.den := by exact_mod_cast x.den_pos
    rw [abs_eq_natAbs_div_den, le_div_iff₀ hdpos]
    have e : (2 : ℚ) ^ ((natLog2 x.num.natAbs : ℤ) - (natLog2 x.den : ℤ) - 1)
        = (2 : ℚ) ^ natLog2 x.num.natAbs / (2 : ℚ) ^ (natLog2 x.den + 1) := by
      rw [show ((natLog2 x.num.natAbs : ℤ) - (natLog2 x.den : ℤ) - 1)
          = (natLog2 x.num.natAbs : ℤ) - ((natLog2 x.den + 1 : ℕ) : ℤ) by push_cast; ring]
      rw [zpow_sub₀ (by norm_num : (2 : ℚ) ≠ 0), zpow_natCast, zpow_natCast]
    rw [e]
    have hpos2 : (0 : ℚ) < (2 : ℚ) ^ (natLog2 x.den + 1) := by positivity
    rw [div_mul_eq_mul_div, div_le_iff₀ hpos2]
    calc (2 : ℚ) ^ natLog2 x.num.natAbs * (x.den : ℚ)
        ≤ (x.num.natAbs : ℚ) * (x.den : ℚ) := by
          apply mul_le_mul_of_nonneg_right h1 hdpos.le
      _ ≤ (x.num.natAbs : ℚ) * (2 : ℚ) ^ (natLog2 x.den + 1) := by
          apply mul_le_mul_of_nonneg_left h2
          positivity

theorem roundTiesEven_intCast (z : ℤ) : roundTiesEven (z : ℚ) = z := by
  unfold roundTiesEven
  simp

theorem roundTiesEven_err (y : ℚ) : |(roundTiesEven y : ℚ) - y| ≤ 1 / 2 := by
  unfold roundTiesEven
  have h0 : 0 ≤ y - ⌊y⌋ := by linarith [Int.floor_le y]
  have h1 : y - ⌊y⌋ < 1 := by linarith [Int.lt_floor_add_one y]
  rw [abs_le]
  split
  · constructor <;> linarith
  · split
    · push_cast
      constructor <;> linarith
    · split
      · constructor <;> linarith
      · push_cast
        constructor <;> linarith

theorem binary64_eq (x : ℚ) (hx : x ≠ 0) :
    binary64 x =
      (roundTiesEven (x / 2 ^ max (floorLog2 x - 52) (-1074)) : ℚ) *
        2 ^ max (floorLog2 x - 52) (-1074) := by
  unfold binary64
  rw [if_neg hx]

/-- In the normal range `binary64` has relative error at most `2 ^ (-53)`. -/
theorem binary64_abs_err (x : ℚ) (hx : x ≠ 0) (hnorm : (2 : ℚ) ^ (-1022 : ℤ) ≤ |x|) :
    |binary64 x - x| ≤ |x| * 2 ^ (-53 : ℤ) := by
  rw [binary64_eq x hx]
  have h2 : (2 : ℚ) ≠ 0 := by norm_num
  have key : ∀ s : ℤ, (2 : ℚ) ^ s * 2 ^ (-1 : ℤ) ≤ |x| * 2 ^ (-53 : ℤ) →
      |(roundTiesEven (x / 2 ^ s) : ℚ) * 2 ^ s - x| ≤ |x| * 2 ^ (-53 : ℤ) := by
    intro s hs
    have hpos : (0 : ℚ) < 2 ^ s := zpow_pos (by norm_num) s
    have e : (roundTiesEven (x / 2 ^ s) : ℚ) * 2 ^ s - x
        = ((roundTiesEven (x / 2 ^ s) : ℚ) - x / 2 ^ s) * 2 ^ s := by
      field_simp
    rw [e, abs_mul, abs_of_pos hpos]
    have herr := roundTiesEven_err (x / 2 ^ s)
    calc |(roundTiesEven (x / 2 ^ s) : ℚ) - x / 2 ^ s| * 2 ^ s
        ≤ 1 / 2 * 2 ^ s := mul_le_mul_of_nonneg_right herr hpos.le
      _ = 2 ^ s * 2 ^ (-1 : ℤ) := by
          rw [zpow_neg_one]
          ring
      _ ≤ |x| * 2 ^ (-53 : ℤ) := hs
  apply key
  rcases le_total (floorLog2 x - 52) (-1074) with h | h
  · rw [max_eq_right h, ← zpow_add₀ h2]
    have e : (-1074 + -1 : ℤ) = -1022 + -53 := by norm_num
    rw [e, zpow_add₀ h2]
    exact mul_le_mul_of_nonneg_right hnorm (zpow_pos (by norm_num) _).le
  · rw [max_eq_left h, ← zpow_add₀ h2]
    have e : (floorLog2 x - 52 + -1 : ℤ) = floorLog2 x + -53 := by ring
    rw [e, zpow_add₀ h2]
    exact mul_le_mul_of_nonneg_right (floorLog2_le hx) (zpow_pos (by norm_num) _).le

/-- Every natural number below `2 ^ 53` is a binary64 number. -/
theorem binary64_natCast (m : ℕ) (hm : m < 2 ^ 53) : binary64 (m : ℚ) = m := by
  by_cases h0 : (m : ℚ) = 0
  · rw [h0]
    rfl
  · rw [binary64_eq _ h0]
    have h2 : (2 : ℚ) ≠ 0 := by norm_num
    have hle := floorLog2_le h0
    rw [Nat.abs_cast] at hle
    have hlt : (2 : ℚ) ^ floorLog2 (m : ℚ) < (2 : ℚ) ^ (53 : ℤ) := by
      have : (m : ℚ) < (2 : ℚ) ^ (53 : ℤ) := by
        rw [show ((53 : ℤ)) = ((53 : ℕ) : ℤ) by norm_num, zpow_natCast]
        exact_mod_cast hm
      exact lt_of_le_of_lt hle this
    have he : floorLog2 (m : ℚ) < 53 := (zpow_lt_zpow_iff_right₀ (by norm_num : (1 : ℚ) < 2)).1 hlt
    have hs : max (floorLog2 (m : ℚ) - 52) (-1074) ≤ 0 := by
      apply max_le <;> omega
    obtain ⟨k, hk⟩ : ∃ k : ℕ, max (floorLog2 (m : ℚ) - 52) (-1074) = -(k : ℤ) :=
      ⟨(-(max (floorLog2 (m : ℚ) - 52) (-1074))).toNat, by
        rw [Int.toNat_of_nonneg (by omega)]
        ring⟩
    rw [hk, zpow_neg, zpow_natCast]
    have hy : (m : ℚ) / ((2 : ℚ) ^ k)⁻¹ = ((m * 2 ^ k : ℕ) : ℤ) := by
      rw [div_inv_eq_mul]
      push_cast
      ring
    rw [hy, roundTiesEven_intCast]
    push_cast
    field_simp

/-- The binary64 sum of whole-number scores is the exact sum. -/
theorem foldl_binary64_whole (S : List ℚ) (hS : ∀ x ∈ S, ∃ m : ℕ, x = m ∧ m ≤ 5) :
    ∀ acc : ℕ, acc + 5 * S.length < 2 ^ 53 →
      ∃ t : ℕ, t ≤ 5 * S.length ∧ S.sum = t ∧
        S.foldl (fun a b => binary64 (a + b)) (acc : ℚ) = ((acc + t : ℕ) : ℚ) := by
  induction S with
  | nil =>
    intro acc _
    exact ⟨0, by simp, by simp, by simp⟩
  | cons x S ih =>
    intro acc hacc
    obtain ⟨m, hxm, hm5⟩ := hS x (List.mem_cons_self _ _)
    simp only [List.length_cons] at hacc
    obtain ⟨t, ht, hsum, hfold⟩ := ih (fun y hy => hS y (List.mem_cons_of_mem _ hy)) (acc + m)
      (by omega)
    refine ⟨m + t, by simp only [List.length_cons]; omega, by rw [List.sum_cons, hxm, hsum]; push_cast; ring, ?_⟩
    rw [List.foldl_cons, hxm]
    have hstep : binary64 ((acc : ℚ) + (m : ℚ)) = ((acc + m : ℕ) : ℚ) := by
      rw [← Nat.cast_add]
      exact binary64_natCast _ (by omega)
    rw [hstep, hfold]
    congr 1
    omega

/-- A perturbation smaller than `1 / D` changes the floor of a fraction of denominator `D`
only when the fraction is an integer, and then lowers it by one. -/
theorem floor_perturb (N : ℤ) (D : ℕ) (hD : 0 < D) (δ : ℚ) (hδ : |δ| < 1 / (D : ℚ)) :
    ⌊(N : ℚ) / D + δ⌋ = ⌊(N : ℚ) / D⌋ ∨
      (Int.fract ((N : ℚ) / D) = 0 ∧ ⌊(N : ℚ) / D + δ⌋ = ⌊(N : ℚ) / D⌋ - 1) := by
  have hDq : (0 : ℚ) < D := by exact_mod_cast hD
  have hfr : Int.fract ((N : ℚ) / D) = ((N % (D : ℤ) : ℤ) : ℚ) / D :=
    Int.fract_div_intCast_eq_div_intCast_mod
  have hr0 : 0 ≤ N % (D : ℤ) := Int.emod_nonneg _ (by exact_mod_cast hD.ne')
  have hrD : N % (D : ℤ) < D := Int.emod_lt_of_pos _ (by exact_mod_cast hD)
  have hδ' := abs_lt.1 hδ
  have hone : 1 / (D : ℚ) ≤ 1 := by
    rw [div_le_one hDq]
    exact_mod_cast hD
  have hw : (N : ℚ) / D = ⌊(N : ℚ) / D⌋ + Int.fract ((N : ℚ) / D) := (Int.floor_add_fract _).symm
  by_cases hr : N % (D : ℤ) = 0
  · have hf0 : Int.fract ((N : ℚ) / D) = 0 := by
      rw [hfr, hr]
      simp
    by_cases hpos : 0 ≤ δ
    · left
      rw [Int.floor_eq_iff]
      constructor
      · rw [hf0, add_zero] at hw
        linarith
      · rw [hf0, add_zero] at hw
        linarith
    · right
      refine ⟨hf0, ?_⟩
      rw [Int.floor_eq_iff]
      push_neg at hpos
      rw [hf0, add_zero] at hw
      push_cast
      constructor <;> linarith
  · left
    have hr1 : (1 : ℤ) ≤ N % (D : ℤ) := by omega
    have hr2 : N % (D : ℤ) ≤ (D : ℤ) - 1 := by omega
    have hlow : 1 / (D : ℚ) ≤ Int.fract ((N : ℚ) / D) := by
      rw [hfr]
      apply div_le_div_of_nonneg_right _ hDq.le
      exact_mod_cast hr1
    have hhigh : Int.fract ((N : ℚ) / D) ≤ 1 - 1 / (D : ℚ) := by
      rw [hfr, le_sub_iff_add_le, ← add_div, div_le_one hDq]
      have : ((N % (D : ℤ) : ℤ) : ℚ) ≤ (D : ℚ) - 1 := by exact_mod_cast hr2
      linarith
    rw [Int.floor_eq_iff]
    constructor <;> linarith

theorem binary64_zero : binary64 0 = 0 := by
  unfold binary64
  rw [if_pos rfl]

/-- For a sum `t` of `n` whole-number scores, `Math.round` of the scaled binary64 mean is
`Math.round` of the scaled exact mean, or one less when the scaled exact mean is halfway
between two integers. -/
theorem round_after_binary64 (t n : ℕ) (hn : 0 < n) (hn40 : n ≤ 2 ^ 40) (ht : t ≤ 5 * n) :
    ⌊binary64 (binary64 ((t : ℚ) / n) * 100) + 1 / 2⌋ = ⌊(t : ℚ) / n * 100 + 1 / 2⌋ ∨
      ((∃ j : ℤ, (t : ℚ) / n * 100 + 1 / 2 = j) ∧
        ⌊binary64 (binary64 ((t : ℚ) / n) * 100) + 1 / 2⌋ = ⌊(t : ℚ) / n * 100 + 1 / 2⌋ - 1) := by
  rcases Nat.eq_zero_or_pos t with h0 | htpos
  · left
    subst h0
    simp [binary64_zero]
  have hnq : (0 : ℚ) < n := by exact_mod_cast hn
  have htq : (1 : ℚ) ≤ t := by exact_mod_cast htpos
  have hn40q : (n : ℚ) ≤ 1099511627776 := by
    have : n ≤ 1099511627776 := by
      have e : (2 : ℕ) ^ 40 = 1099511627776 := by norm_num
      omega
    exact_mod_cast this
  have ht5 : (t : ℚ) ≤ 5 * n := by exact_mod_cast ht
  have hε : (2 : ℚ) ^ (-53 : ℤ) = 1 / 9007199254740992 := by norm_num
  have hmin : (2 : ℚ) ^ (-1022 : ℤ) ≤ 1 / 2199023255552 := by
    calc (2 : ℚ) ^ (-1022 : ℤ) ≤ (2 : ℚ) ^ (-41 : ℤ) :=
          zpow_le_zpow_right₀ (by norm_num) (by norm_num)
      _ = 1 / 2199023255552 := by norm_num
  -- the exact mean and its bounds
  have hv0pos : (0 : ℚ) < (t : ℚ) / n := by positivity
  have hv05 : (t : ℚ) / n ≤ 5 := by
    rw [div_le_iff₀ hnq]
    exact ht5
  have hv0low : 1 / 1099511627776 ≤ (t : ℚ) / n := by
    rw [le_div_iff₀ hnq]
    linarith
  -- first rounding
  have e1 := binary64_abs_err ((t : ℚ) / n) hv0pos.ne'
    (by rw [abs_of_pos hv0pos]; linarith)
  rw [abs_of_pos hv0pos, hε] at e1
  have e1' := abs_le.1 e1
  have hqlow : 1 / 2199023255552 ≤ binary64 ((t : ℚ) / n) := by linarith
  have hqpos : 0 < binary64 ((t : ℚ) / n) := by linarith
  have hq100 : 0 < binary64 ((t : ℚ) / n) * 100 := by linarith
  -- second rounding
  have e2 := binary64_abs_err (binary64 ((t : ℚ) / n) * 100) hq100.ne'
    (by rw [abs_of_pos hq100]; linarith)
  rw [abs_of_pos hq100, hε] at e2
  have e2' := abs_le.1 e2
  -- the perturbation
  have hδ : |binary64 (binary64 ((t : ℚ) / n) * 100) - (t : ℚ) / n * 100|
      < 1 / ((2 * n : ℕ) : ℚ) := by
    have hD : 1 / 2199023255552 ≤ 1 / ((2 * n : ℕ) : ℚ) := by
      have h2n : (0 : ℚ) < ((2 * n : ℕ) : ℚ) := by push_cast; linarith
      rw [div_le_div_iff₀ (by norm_num) h2n]
      push_cast
      linarith
    rw [abs_lt]
    constructor <;> linarith
  have hw : (((200 * t + n : ℕ) : ℤ) : ℚ) / ((2 * n : ℕ) : ℚ) = (t : ℚ) / n * 100 + 1 / 2 := by
    push_cast
    field_simp
    ring
  have hp := floor_perturb ((200 * t + n : ℕ) : ℤ) (2 * n) (by omega)
    (binary64 (binary64 ((t : ℚ) / n) * 100) - (t : ℚ) / n * 100) hδ
  rw [hw] at hp
  have hsum : (t : ℚ) / n * 100 + 1 / 2
      + (binary64 (binary64 ((t : ℚ) / n) * 100) - (t : ℚ) / n * 100)
      = binary64 (binary64 ((t : ℚ) / n) * 100) + 1 / 2 := by ring
  rw [hsum] at hp
  rcases hp with h | ⟨hf, h⟩
  · exact Or.inl h
  · refine Or.inr ⟨⟨⌊(t : ℚ) / n * 100 + 1 / 2⌋, ?_⟩, h⟩
    have := Int.floor_add_fract ((t : ℚ) / n * 100 + 1 / 2)
    rw [hf, add_zero] at this
    exact this.symm

/-- On whole-number scores from 0 to 5, at most `2 ^ 40` of them, the binary64 evaluation
stores the binary64 number nearest to the mean rounded to 2 decimals, or, only at a mean
exactly halfway between two hundredths, nearest to the hundredth below. -/
theorem roundedMean64_whole (S : List ℚ) (hne : S ≠ [])
    (hS : ∀ x ∈ S, ∃ m : ℕ, x = m ∧ m ≤ 5) (hlen : S.length ≤ 2 ^ 40) :
    roundedMean64 S = some (binary64 (specRound2 (specMean S))) ∨
      ((∃ j : ℤ, specMean S * 100 + 1 / 2 = j) ∧
        roundedMean64 S = some (binary64 (specRound2 (specMean S) - 1 / 100))) := by
  have hn : 0 < S.length := List.length_pos.2 hne
  have e40 : (2 : ℕ) ^ 40 = 1099511627776 := by norm_num
  have e53 : (2 : ℕ) ^ 53 = 9007199254740992 := by norm_num
  obtain ⟨t, ht, hsum, hfold⟩ := foldl_binary64_whole S hS 0 (by omega)
  have hfold' : S.foldl (fun a b => binary64 (a + b)) 0 = (t : ℚ) := by
    have := hfold
    simp only [Nat.cast_zero, zero_add] at this
    exact this
  have hmean : specMean S = (t : ℚ) / S.length := by
    unfold specMean
    rw [hsum]
  have hval : roundedMean64 S = some (binary64
      ((⌊binary64 (binary64 ((t : ℚ) / S.length) * 100) + 1 / 2⌋ : ℚ) / 100)) := by
    unfold roundedMean64 Math.round
    rw [if_pos hn, hfold']
  have hspec : specRound2 (specMean S) = (⌊(t : ℚ) / S.length * 100 + 1 / 2⌋ : ℚ) / 100 := by
    unfold specRound2
    rw [hmean, round_eq]
  rw [hval, hspec, hmean]
  rcases round_after_binary64 t S.length hn hlen ht with h | ⟨hj, h⟩
  · left
    rw [h]
  · right
    refine ⟨hj, ?_⟩
    rw [h]
    congr 2
    push_cast
    ring

theorem sum_bounds (S : List ℚ) (lo hi : ℚ) (h : ∀ x ∈ S, lo ≤ x ∧ x ≤ hi) :
    lo * S.length ≤ S.sum ∧ S.sum ≤ hi * S.length := by
  induction S with
  | nil => simp
  | cons a S ih =>
    have ha := h a (List.mem_cons_self _ _)
    have hS := ih (fun x hx => h x (List.mem_cons_of_mem _ hx))
    simp only [List.sum_cons, List.length_cons, Nat.cast_add, Nat.cast_one]
    constructor
    · nlinarith [ha.1, hS.1]
    · nlinarith [ha.2, hS.2]

/-- The rounding error of `binary64`: half a unit in the last place of a normal number,
half the subnormal spacing below the normal range. -/
theorem binary64_err (x : ℚ) : |binary64 x - x| ≤ |x| * 2 ^ (-53 : ℤ) + 2 ^ (-1075 : ℤ) := by
  by_cases hx : x = 0
  · subst hx
    rw [binary64_zero]
    simp only [sub_self, abs_zero, zero_mul, zero_add]
    exact (zpow_pos (by norm_num) _).le
  rw [binary64_eq x hx]
  have h2 : (2 : ℚ) ≠ 0 := by norm_num
  have hu : (0 : ℚ) ≤ |x| * 2 ^ (-53 : ℤ) :=
    mul_nonneg (abs_nonneg x) (zpow_pos (by norm_num) _).le
  have ht : (0 : ℚ) ≤ 2 ^ (-1075 : ℤ) := (zpow_pos (by norm_num) _).le
  have key : ∀ s : ℤ,
      |(roundTiesEven (x / 2 ^ s) : ℚ) * 2 ^ s - x| ≤ 2 ^ s * 2 ^ (-1 : ℤ) := by
    intro s
    have hpos : (0 : ℚ) < 2 ^ s := zpow_pos (by norm_num) s
    have e : (roundTiesEven (x / 2 ^ s) : ℚ) * 2 ^ s - x
        = ((roundTiesEven (x / 2 ^ s) : ℚ) - x / 2 ^ s) * 2 ^ s := by
      field_simp
    rw [e, abs_mul, abs_of_pos hpos]
    have herr := roundTiesEven_err (x / 2 ^ s)
    calc |(roundTiesEven (x / 2 ^ s) : ℚ) - x / 2 ^ s| * 2 ^ s
        ≤ 1 / 2 * 2 ^ s := mul_le_mul_of_nonneg_right herr hpos.le
      _ = 2 ^ s * 2 ^ (-1 : ℤ) := by
          rw [zpow_neg_one]
          ring
  refine le_trans (key _) ?_
  rcases le_total (floorLog2 x - 52) (-1074) with h | h
  · rw [max_eq_right h, ← zpow_add₀ h2]
    have e : (-1074 + -1 : ℤ) = -1075 := by norm_num
    rw [e]
    linarith
  · rw [max_eq_left h, ← zpow_add₀ h2]
    have e : (floorLog2 x - 52 + -1 : ℤ) = floorLog2 x + -53 := by ring
    rw [e, zpow_add₀ h2]
    have := mul_le_mul_of_nonneg_right (floorLog2_le hx)
      (zpow_pos (by norm_num : (0 : ℚ) < 2) (-53 : ℤ)).le
    linarith

theorem tiny_le : (2 : ℚ) ^ (-1075 : ℤ) ≤ 1 / 9007199254740992 := by
  calc (2 : ℚ) ^ (-1075 : ℤ) ≤ (2 : ℚ) ^ (-53 : ℤ) :=
        zpow_le_zpow_right₀ (by norm_num) (by norm_num)
    _ = 1 / 9007199254740992 := by norm_num

/-- An absolute form of the rounding error for values of magnitude at most `B`. -/
theorem binary64_err_le (x B : ℚ) (hB : |x| ≤ B) :
    |binary64 x - x| ≤ (B + 1) / 9007199254740992 := by
  have h := binary64_err x
  have hε : (2 : ℚ) ^ (-53 : ℤ) = 1 / 9007199254740992 := by norm_num
  rw [hε] at h
  have ht := tiny_le
  have hx : |x| * (1 / 9007199254740992) ≤ B * (1 / 9007199254740992) :=
    mul_le_mul_of_nonneg_right hB (by norm_num)
  calc |binary64 x - x| ≤ |x| * (1 / 9007199254740992) + 2 ^ (-1075 : ℤ) := h
    _ ≤ B * (1 / 9007199254740992) + 1 / 9007199254740992 := by linarith
    _ = (B + 1) / 9007199254740992 := by ring

/-- The binary64 sum of scores between 0 and 5 differs from the exact sum by at most
`2 ^ (-30)` for each score added. -/
theorem foldl_binary64_err (S : List ℚ) (hS : ∀ x ∈ S, 0 ≤ x ∧ x ≤ 5) :
    ∀ (acc a : ℚ) (k : ℕ), 0 ≤ a → a ≤ 5 * k → |acc - a| ≤ k / 1073741824 →
      k + S.length ≤ 1048576 →
      |S.foldl (fun a b => binary64 (a + b)) acc - (a + S.sum)|
        ≤ ((k + S.length : ℕ) : ℚ) / 1073741824 := by
  induction S with
  | nil =>
    intro acc a k _ _ h _
    simpa using h
  | cons x S ih =>
    intro acc a k ha0 ha5 hacc hk
    obtain ⟨hx0, hx5⟩ := hS x (List.mem_cons_self _ _)
    simp only [List.length_cons] at hk
    have hkq : (k : ℚ) + 1 ≤ 1048576 := by
      have : k + 1 ≤ 1048576 := by omega
      exact_mod_cast this
    have hk0 : (0 : ℚ) ≤ k := Nat.cast_nonneg k
    have hacc' := abs_le.1 hacc
    have hbound : |acc + x| ≤ 5242881 := by
      rw [abs_le]
      constructor <;> linarith
    have hr := abs_le.1 (binary64_err_le (acc + x) 5242881 hbound)
    have hstep : |binary64 (acc + x) - (a + x)| ≤ ((k + 1 : ℕ) : ℚ) / 1073741824 := by
      rw [abs_le]
      push_cast
      constructor <;> linarith
    have h := ih (fun y hy => hS y (List.mem_cons_of_mem _ hy)) (binary64 (acc + x)) (a + x)
      (k + 1) (by linarith) (by push_cast; linarith) hstep (by omega)
    rw [List.foldl_cons, List.sum_cons]
    have e1 : a + (x + S.sum) = a + x + S.sum := by ring
    have e2 : k + (S.length + 1) = k + 1 + S.length := by omega
    rw [e1, List.length_cons, e2]
    exact h

/-- On scores between 0 and 5, at most `2 ^ 20` of them, the binary64 evaluation stores
the binary64 number nearest to a hundredth whose distance from the exact mean is at most
`0.005 + 0.00000001`. -/
theorem roundedMean64_near (S : List ℚ) (hne : S ≠ [])
    (hS : ∀ x ∈ S, 0 ≤ x ∧ x ≤ 5) (hlen : S.length ≤ 2 ^ 20) :
    ∃ k : ℤ, roundedMean64 S = some (binary64 ((k : ℚ) / 100)) ∧
      |(k : ℚ) / 100 - specMean S| ≤ 1 / 200 + 1 / 100000000 := by
  have hn : 0 < S.length := List.length_pos.2 hne
  have hnq : (0 : ℚ) < (S.length : ℚ) := by exact_mod_cast hn
  have hn1 : (1 : ℚ) ≤ (S.length : ℚ) := by exact_mod_cast hn
  have hlen' : 0 + S.length ≤ 1048576 := by
    have e : (2 : ℕ) ^ 20 = 1048576 := by norm_num
    omega
  have hfold := foldl_binary64_err S hS 0 0 0 le_rfl (by simp) (by simp) hlen'
  simp only [zero_add] at hfold
  -- bounds on the exact sum
  have hsum := sum_bounds S 0 5 hS
  -- the computed sum and the computed mean
  set f := S.foldl (fun a b => binary64 (a + b)) 0 with hf
  have hfold' := abs_le.1 hfold
  have hmean : |f / S.length - S.sum / S.length| ≤ 1 / 1073741824 := by
    rw [← sub_div, abs_div, abs_of_pos hnq, div_le_iff₀ hnq]
    calc |f - S.sum| ≤ (S.length : ℚ) / 1073741824 := hfold
      _ = 1 / 1073741824 * S.length := by ring
  have hmean' := abs_le.1 hmean
  have hm0 : 0 ≤ S.sum / (S.length : ℚ) := div_nonneg (by linarith [hsum.1]) hnq.le
  have hm5 : S.sum / (S.length : ℚ) ≤ 5 := by
    rw [div_le_iff₀ hnq]
    linarith [hsum.2]
  have hb1 : |f / S.length| ≤ 6 := by
    rw [abs_le]
    constructor <;> linarith
  have hq := abs_le.1 (binary64_err_le (f / S.length) 6 hb1)
  have hb2 : |binary64 (f / S.length) * 100| ≤ 700 := by
    rw [abs_le]
    constructor <;> linarith
  have hy := abs_le.1 (binary64_err_le (binary64 (f / S.length) * 100) 700 hb2)
  have hk1 := Int.floor_le (binary64 (binary64 (f / S.length) * 100) + 1 / 2)
  have hk2 := Int.lt_floor_add_one (binary64 (binary64 (f / S.length) * 100) + 1 / 2)
  refine ⟨Math.round (binary64 (binary64 (f / S.length) * 100)), ?_, ?_⟩
  · unfold roundedMean64
    rw [if_pos hn]
  · unfold specMean Math.round
    rw [abs_le]
    constructor <;> linarith

/-- On scores between 0 and 5 the binary64 evaluation returns a hundredth next to the
mean. -/
theorem nearReference_roundedMean64 (S : List ℚ) (hS : ∀ x ∈ S, 0 ≤ x ∧ x ≤ 5)
    (hlen : S.length ≤ 2 ^ 20) : NearReference S (roundedMean64 S) := by
  cases S with
  | nil => exact Or.inl ⟨rfl, rfl⟩
  | cons a S => exact Or.inr (roundedMean64_near (a :: S) (List.cons_ne_nil _ _) hS hlen)

theorem mem_wholeScores {x : ℚ} (h : x ∈ wholeScores) : ∃ m : ℕ, x = m ∧ m ≤ 5 := by
  simp only [wholeScores, List.mem_cons, List.mem_singleton, List.not_mem_nil, or_false] at h
  rcases h with rfl | rfl | rfl | rfl | rfl | rfl
  · exact ⟨0, by norm_num, by norm_num⟩
  · exact ⟨1, by norm_num, by norm_num⟩
  · exact ⟨2, by norm_num, by norm_num⟩
  · exact ⟨3, by norm_num, by norm_num⟩
  · exact ⟨4, by norm_num, by norm_num⟩
  · exact ⟨5, by norm_num, by norm_num⟩

/-- On whole-number scores the binary64 evaluation returns the reference average up to
binary64 representation, except possibly at an exact tie. -/
theorem agreesUpToTie_roundedMean64 (S : List ℚ) (hS : ∀ x ∈ S, x ∈ wholeScores)
    (hlen : S.length ≤ 2 ^ 40) : AgreesUpToTie S (roundedMean64 S) := by
  cases S with
  | nil => exact Or.inl rfl
  | cons a S =>
    rcases roundedMean64_whole (a :: S) (List.cons_ne_nil _ _)
      (fun x hx => mem_wholeScores (hS x hx)) hlen with h | ⟨hj, h⟩
    · exact Or.inl (by rw [h]; rfl)
    · exact Or.inr ⟨hj, by rw [h]; rfl⟩

theorem specScores_pillar_sublist (qs : List Question) (n : PillarName) :
    (specScores (specPillarQuestions qs n)).Sublist (specScores qs) := by
  rw [specScores_eq, specScores_eq]
  exact List.Sublist.filterMap _ (List.filter_sublist qs)

theorem length_specScores_le (qs : List Question) : (specScores qs).length ≤ qs.length := by
  rw [specScores_eq]
  exact List.length_filterMap_le _ _

/-- Whenever `recalcDomainAggregates64` returns, it has written `withAggregates64`; it
throws exactly when the bucket loop does. -/
theorem recalc64_eq_map (data : DomainData) :
    recalcDomainAggregates64 data =
      (collectScores data.questions (pillarOrder.map (fun p => (p, [])))).map
        (fun _ => withAggregates64 data) := by
  cases h : collectScores data.questions (pillarOrder.map (fun p => (p, []))) with
  | none => simp only [recalcDomainAggregates64, h, Option.map_none']
  | some ps =>
    simp only [recalcDomainAggregates64, h, Option.map_some', withAggregates64,
      collected_bucket h, getBand_scoreValue, specScores_eq]

theorem recalc64_of_fixed_pillars (data : DomainData)
    (hq : ∀ q ∈ data.questions, q.pillar ∈ pillarOrder) :
    recalcDomainAggregates64 data = some (withAggregates64 data) := by
  obtain ⟨ps, hps⟩ := collectScores_isSome data.questions (pillarOrder.map (fun p => (p, [])))
    (fun q hmem _ => by rw [lookup_pillarOrder, if_pos (hq q hmem)]; rfl)
  rw [recalc64_eq_map, hps]
  rfl

/-- On whole-number scores every aggregate `withAggregates64` writes agrees with the
reference average up to binary64 representation and exact ties. -/
theorem withAggregates64_agrees (data : DomainData)
    (hw : ∀ x ∈ specScores data.questions, x ∈ wholeScores)
    (hlen : data.questions.length ≤ 2 ^ 40) :
    AgreesUpToTie (specScores data.questions) (withAggregates64 data).overall_score ∧
    ∀ p ∈ (withAggregates64 data).pillars,
      AgreesUpToTie (specScores (specPillarQuestions data.questions p.name)) p.avg_score := by
  constructor
  · exact agreesUpToTie_roundedMean64 _ hw (le_trans (length_specScores_le _) hlen)
  · intro p hp
    simp only [withAggregates64, List.mem_map] at hp
    obtain ⟨p0, _, rfl⟩ := hp
    have hsub := specScores_pillar_sublist data.questions p0.name
    exact agreesUpToTie_roundedMean64 _ (fun x hx => hw x (hsub.subset hx))
      (le_trans hsub.length_le (le_trans (length_specScores_le _) hlen))

/-- On scores between 0 and 5 every aggregate `withAggregates64` writes is a hundredth
next to the mean. -/
theorem withAggregates64_near (data : DomainData)
    (hw : ∀ x ∈ specScores data.questions, 0 ≤ x ∧ x ≤ 5)
    (hlen : data.questions.length ≤ 2 ^ 20) :
    NearReference (specScores data.questions) (withAggregates64 data).overall_score ∧
    ∀ p ∈ (withAggregates64 data).pillars,
      NearReference (specScores (specPillarQuestions data.questions p.name)) p.avg_score := by
  constructor
  · exact nearReference_roundedMean64 _ hw (le_trans (length_specScores_le _) hlen)
  · intro p hp
    simp only [withAggregates64, List.mem_map] at hp
    obtain ⟨p0, _, rfl⟩ := hp
    have hsub := specScores_pillar_sublist data.questions p0.name
    exact nearReference_roundedMean64 _ (fun x hx => hw x (hsub.subset hx))
      (le_trans hsub.length_le (le_trans (length_specScores_le _) hlen))

/-- Counterexample to C1 as stated: in domain "ops", 39 questions scored 1 and one scored
2, the mean is 1.025 and the reference average 1.03; the code divides 41 by 40 to the
binary64 number just below 1.025, scales it to a number below 102.5, and stores the
binary64 number nearest to 1.02 as `overall_score` and as `avg_score` of the pillar. -/
theorem recalcDomainAggregates64_tie_rounds_down :
    (∀ q ∈ (fortyQuestions (some 2)).questions, q.pillar ∈ pillarOrder) ∧
    specMean (specScores (fortyQuestions (some 2)).questions) = 1025 / 1000 ∧
    specAverage (specScores (fortyQuestions (some 2)).questions) = some (103 / 100) ∧
    binary64 (41 / 40) < 1025 / 1000 ∧
    binary64 (binary64 (41 / 40) * 100) < 1025 / 10 ∧
    (recalcDomainAggregates64 (fortyQuestions (some 2))).map
      (fun d => (d.overall_score, d.pillars.map (fun p => p.avg_score)))
      = some (some (binary64 (102 / 100)), [some (binary64 (102 / 100))]) ∧
    binary64 (102 / 100) ≠ binary64 (103 / 100) ∧
    binary64 (102 / 100) < 103 / 100 - 1 / 200 := by
  decide!

/-- Claim C1, amended: `recalcDomainAggregates`, evaluated in binary64 arithmetic, on a
domain whose questions each name one of the four fixed pillars.  The call succeeds, keeps
the questions, and leaves `overall_score` equal to the value of the rounding expression
on the non-null scores of all questions (null when there are none), every pillar of the
pillar list with `avg_score` equal to its value on the non-null scores of the questions
of that pillar, and each band equal to `classify` of its score; the overall score is
computed from the question scores, not from the pillar averages.  When the scores are
whole numbers from 0 to 5 and there are at most `2 ^ 40` questions, each of these values
is the binary64 number nearest to the mean rounded once to 2 decimals, except that when
the mean lies exactly halfway between two hundredths it may be the binary64 number
nearest to the hundredth below.  When the scores are any numbers from 0 to 5 and there
are at most `2 ^ 20` questions, each of these values is the binary64 number nearest to a
hundredth at distance at most 0.00500001 from the mean. -/
theorem recalcDomainAggregates64_meets_reference (data : DomainData)
    (hq : ∀ q ∈ data.questions, q.pillar ∈ pillarOrder) :
    ∃ d, recalcDomainAggregates64 data = some d ∧
      d.domain = data.domain ∧ d.questions = data.questions ∧
      d.pillars.map (fun p => p.name) = data.pillars.map (fun p => p.name) ∧
      d.overall_score = roundedMean64 (specScores data.questions) ∧
      d.overall_band = classify d.overall_score ∧
      (∀ p ∈ d.pillars,
        p.avg_score = roundedMean64 (specScores (specPillarQuestions data.questions p.name)) ∧
        p.band = classify p.avg_score) ∧
      ((∀ x ∈ specScores data.questions, x ∈ wholeScores) →
        data.questions.length ≤ 2 ^ 40 →
        AgreesUpToTie (specScores data.questions) d.overall_score ∧
        ∀ p ∈ d.pillars,
          AgreesUpToTie (specScores (specPillarQuestions data.questions p.name)) p.avg_score) ∧
      ((∀ x ∈ specScores data.questions, 0 ≤ x ∧ x ≤ 5) →
        data.questions.length ≤ 2 ^ 20 →
        NearReference (specScores data.questions) d.overall_score ∧
        ∀ p ∈ d.pillars,
          NearReference (specScores (specPillarQuestions data.questions p.name)) p.avg_score) := by
  refine ⟨withAggregates64 data, recalc64_of_fixed_pillars data hq, rfl, rfl, ?_, rfl, rfl,
    ?_, withAggregates64_agrees data, withAggregates64_near data⟩
  · simp [withAggregates64, Function.comp_def]
  · intro p hp
    simp only [withAggregates64, List.mem_map] at hp
    obtain ⟨p0, _, rfl⟩ := hp
    exact ⟨rfl, rfl⟩

/-- The witness of the amended C1: the "sales" scenario, whole-number scores 3 and 5,
Data as a Product 4.00, Domain Ownership null, overall 4.00. -/
theorem recalcDomainAggregates64_meets_reference_witness :
    (∀ q ∈ salesDomain.questions, q.pillar ∈ pillarOrder) ∧
    (∀ x ∈ specScores salesDomain.questions, x ∈ wholeScores) ∧
    (∀ x ∈ specScores salesDomain.questions, 0 ≤ x ∧ x ≤ 5) ∧
    salesDomain.questions.length ≤ 2 ^ 20 ∧
    recalcDomainAggregates64 salesDomain = some salesRecomputed ∧
    ∃ d, recalcDomainAggregates64 salesDomain = some d ∧
      d.domain = salesDomain.domain ∧ d.questions = salesDomain.questions ∧
      d.pillars.map (fun p => p.name) = salesDomain.pillars.map (fun p => p.name) ∧
      d.overall_score = roundedMean64 (specScores salesDomain.questions) ∧
      d.overall_band = classify d.overall_score ∧
      (∀ p ∈ d.pillars,
        p.avg_score = roundedMean64 (specScores (specPillarQuestions salesDomain.questions p.name)) ∧
        p.band = classify p.avg_score) ∧
      ((∀ x ∈ specScores salesDomain.questions, x ∈ wholeScores) →
        salesDomain.questions.length ≤ 2 ^ 40 →
        AgreesUpToTie (specScores salesDomain.questions) d.overall_score ∧
        ∀ p ∈ d.pillars,
          AgreesUpToTie (specScores (specPillarQuestions salesDomain.questions p.name))
            p.avg_score) ∧
      ((∀ x ∈ specScores salesDomain.questions, 0 ≤ x ∧ x ≤ 5) →
        salesDomain.questions.length ≤ 2 ^ 20 →
        NearReference (specScores salesDomain.questions) d.overall_score ∧
        ∀ p ∈ d.pillars,
          NearReference (specScores (specPillarQuestions salesDomain.questions p.name))
            p.avg_score) :=
  ⟨by decide, by decide!, by decide!, by decide, by decide!,
   recalcDomainAggregates64_meets_reference salesDomain (by decide)⟩

/-! ## Changing a score -/

theorem mem_updateFirst {α : Type} {p : α → Bool} {f : α → α} {l : List α} {b : α}
    (h : b ∈ updateFirst p f l) : b ∈ l ∨ ∃ a ∈ l, b = f a := by
  induction l with
  | nil => simp [updateFirst] at h
  | cons a l ih =>
    unfold updateFirst at h
    split at h
    · rcases List.mem_cons.1 h with h | h
      · exact Or.inr ⟨a, List.mem_cons_self _ _, h⟩
      · exact Or.inl (List.mem_cons_of_mem _ h)
    · rcases List.mem_cons.1 h with h | h
      · exact Or.inl (h ▸ List.mem_cons_self _ _)
      · rcases ih h with h | ⟨c, hc, e⟩
        · exact Or.inl (List.mem_cons_of_mem _ h)
        · exact Or.inr ⟨c, List.mem_cons_of_mem _ hc, e⟩

theorem find_updateFirst {α : Type} (p : α → Bool) (f : α → α) (hp : ∀ a, p (f a) = p a)
    (l : List α) : (updateFirst p f l).find? p = (l.find? p).map f := by
  induction l with
  | nil => rfl
  | cons a l ih =>
    unfold updateFirst
    by_cases h : p a = true
    · simp [h, List.find?_cons, hp]
    · simp [h, List.find?_cons, ih]

theorem setQuestionScore_pillar {qs : List Question} {qId : String} {s : Option ℚ} {b : Band}
    (h : ∀ q ∈ qs, q.pillar ∈ pillarOrder) :
    ∀ q ∈ setQuestionScore qs qId s b, q.pillar ∈ pillarOrder := by
  intro q hq
  rcases mem_updateFirst hq with hq | ⟨a, ha, rfl⟩
  · exact h q hq
  · exact h a ha

theorem find_setQuestionScore (qs : List Question) (qId : String) (s : Option ℚ) (b : Band) :
    (setQuestionScore qs qId s b).find? (fun q => decide (q.id = qId)) =
      (qs.find? (fun q => decide (q.id = qId))).map (fun q => { q with score := s, band := b }) :=
  find_updateFirst (fun q => decide (q.id = qId)) (fun q => { q with score := s, band := b })
    (fun _ => rfl) qs

theorem handleScoreChange_of_recalc {st : State} {data data2 : DomainData} {qId : String}
    {s : Option ℤ} (hopen : st.currentDomainData = some data)
    (hr : recalcDomainAggregates
      (updateQuestion data qId (parsedScore s) (classify (parsedScore s))) = some data2) :
    handleScoreChange st qId s =
      { state :=
          { allDomains := updateSummary st.allDomains data2,
            overviewData := updateMatrix st.overviewData data2,
            currentDomainData := some data2,
            scoreOverrides := storeOverride st.scoreOverrides data.domain qId (parsedScore s),
            saved := st.saved ++ [(data.domain, qId, parsedScore s)] },
        threw := false } := by
  simp only [handleScoreChange, getBand_scoreValue, hopen, hr]

theorem handleScoreChange64_of_recalc {st : State} {data data2 : DomainData} {qId : String}
    {s : Option ℤ} (hopen : st.currentDomainData = some data)
    (hr : recalcDomainAggregates64
      (updateQuestion data qId (parsedScore s) (classify (parsedScore s))) = some data2) :
    handleScoreChange64 st qId s =
      { state :=
          { allDomains := updateSummary st.allDomains data2,
            overviewData := updateMatrix st.overviewData data2,
            currentDomainData := some data2,
            scoreOverrides := storeOverride st.scoreOverrides data.domain qId (parsedScore s),
            saved := st.saved ++ [(data.domain, qId, parsedScore s)] },
        threw := false } := by
  simp only [handleScoreChange64, getBand_scoreValue, hopen, hr]

/-- Counterexample to C2 as stated: in the open snapshot of "ops", 39 questions scored 1
and `Q40` unscored, setting `Q40` to 2 leaves the snapshot with `overall_score` and the
pillar `avg_score` at the binary64 number nearest to 1.02, while the mean of the current
scores, 1.025, rounded to 2 decimals is 1.03. -/
theorem handleScoreChange64_tie_rounds_down :
    fortyState.currentDomainData = some fortyRecomputed ∧
    recalcDomainAggregates64 (fortyQuestions none) = some fortyRecomputed ∧
    (∃ q ∈ fortyRecomputed.questions, q.id = "Q40") ∧
    (∀ q ∈ fortyRecomputed.questions, q.pillar ∈ pillarOrder) ∧
    (handleScoreChange64 fortyState "Q40" (some 2)).threw = false ∧
    (handleScoreChange64 fortyState "Q40" (some 2)).state.currentDomainData.map
      (fun d => (d.overall_score, d.pillars.map (fun p => p.avg_score),
        specMean (specScores d.questions), specAverage (specScores d.questions)))
      = some (some (binary64 (102 / 100)), [some (binary64 (102 / 100))],
          1025 / 1000, some (103 / 100)) ∧
    binary64 (102 / 100) ≠ binary64 (103 / 100) ∧
    binary64 (102 / 100) < 103 / 100 - 1 / 200 := by
  decide!

/-- Claim C2, amended: for an open snapshot whose questions name fixed pillars and a
question id `qId` present in it, `handleScoreChange`, evaluated in binary64 arithmetic,
returns normally and the snapshot becomes `recalcDomainAggregates` of the previous
snapshot with that question's score set to the new score and its band to `classify` of
it: reading the question returns the new score whatever it was before, and
`overall_score` and every pillar `avg_score` are the values of the rounding expression on
the questions' current scores.  When the current scores are whole numbers from 0 to 5 and
there are at most `2 ^ 40` questions, each of these values is the binary64 number nearest
to the mean rounded once to 2 decimals, except that when the mean lies exactly halfway
between two hundredths it may be the binary64 number nearest to the hundredth below.
When the current scores are any numbers from 0 to 5 and there are at most `2 ^ 20`
questions, each of these values is the binary64 number nearest to a hundredth at distance
at most 0.00500001 from the mean. -/
theorem handleScoreChange64_snapshot (st : State) (data : DomainData) (qId : String)
    (s : Option ℤ)
    (hopen : st.currentDomainData = some data)
    (hq : ∃ q ∈ data.questions, q.id = qId)
    (hwf : ∀ q ∈ data.questions, q.pillar ∈ pillarOrder) :
    (handleScoreChange64 st qId s).threw = false ∧
    ∃ d, (handleScoreChange64 st qId s).state.currentDomainData = some d ∧
      recalcDomainAggregates64
        (updateQuestion data qId (parsedScore s) (classify (parsedScore s))) = some d ∧
      (∃ q, d.questions.find? (fun q => decide (q.id = qId)) = some q ∧
        q.score = parsedScore s ∧ q.band = classify (parsedScore s)) ∧
      d.overall_score = roundedMean64 (specScores d.questions) ∧
      (∀ p ∈ d.pillars,
        p.avg_score = roundedMean64 (specScores (specPillarQuestions d.questions p.name))) ∧
      ((∀ x ∈ specScores d.questions, x ∈ wholeScores) →
        d.questions.length ≤ 2 ^ 40 →
        AgreesUpToTie (specScores d.questions) d.overall_score ∧
        ∀ p ∈ d.pillars,
          AgreesUpToTie (specScores (specPillarQuestions d.questions p.name)) p.avg_score) ∧
      ((∀ x ∈ specScores d.questions, 0 ≤ x ∧ x ≤ 5) →
        d.questions.length ≤ 2 ^ 20 →
        NearReference (specScores d.questions) d.overall_score ∧
        ∀ p ∈ d.pillars,
          NearReference (specScores (specPillarQuestions d.questions p.name)) p.avg_score) := by
  have hwf1 : ∀ q ∈ (updateQuestion data qId (parsedScore s)
      (classify (parsedScore s))).questions, q.pillar ∈ pillarOrder :=
    setQuestionScore_pillar hwf
  have hd := recalc64_of_fixed_pillars _ hwf1
  rw [handleScoreChange64_of_recalc hopen hd]
  refine ⟨rfl, _, rfl, hd, ?_, rfl, ?_,
    withAggregates64_agrees (updateQuestion data qId (parsedScore s) (classify (parsedScore s))),
    withAggregates64_near (updateQuestion data qId (parsedScore s) (classify (parsedScore s)))⟩
  · show ∃ q, (setQuestionScore data.questions qId (parsedScore s)
      (classify (parsedScore s))).find? (fun q => decide (q.id = qId)) = some q ∧ _
    rw [find_setQuestionScore]
    obtain ⟨q, hq1, hq2⟩ := hq
    cases hf : data.questions.find? (fun q => decide (q.id = qId)) with
    | none =>
      have := List.find?_eq_none.1 hf q hq1
      simp [hq2] at this
    | some q0 => exact ⟨_, rfl, rfl, rfl⟩
  · intro p hpm
    simp only [withAggregates64, List.mem_map] at hpm
    obtain ⟨p0, _, rfl⟩ := hpm
    rfl

/-- The witness of the amended C2: in "sales" (scores 3, 5, null) setting the unscored
question to 2 gives the binary64 number nearest to 3.33 as overall score and 2.00 for
Domain Ownership. -/
theorem handleScoreChange64_snapshot_witness :
    salesState.currentDomainData = some salesRecomputed ∧
    (∃ q ∈ salesRecomputed.questions, q.id = "Q3") ∧
    (∀ q ∈ salesRecomputed.questions, q.pillar ∈ pillarOrder) ∧
    ((handleScoreChange64 salesState "Q3" (some 2)).state.currentDomainData.map
      (fun d => (d.overall_score, d.pillars.map (fun p => p.avg_score),
        specAverage (specScores d.questions)))
        = some (some (binary64 (333 / 100)), [some 2, some 4, none, none],
            some (333 / 100))) ∧
    (handleScoreChange64 salesState "Q3" (some 2)).threw = false ∧
    ∃ d, (handleScoreChange64 salesState "Q3" (some 2)).state.currentDomainData = some d ∧
      recalcDomainAggregates64
        (updateQuestion salesRecomputed "Q3" (parsedScore (some 2))
          (classify (parsedScore (some 2)))) = some d ∧
      (∃ q, d.questions.find? (fun q => decide (q.id = "Q3")) = some q ∧
        q.score = parsedScore (some 2) ∧ q.band = classify (parsedScore (some 2))) ∧
      d.overall_score = roundedMean64 (specScores d.questions) ∧
      (∀ p ∈ d.pillars,
        p.avg_score = roundedMean64 (specScores (specPillarQuestions d.questions p.name))) ∧
      ((∀ x ∈ specScores d.questions, x ∈ wholeScores) →
        d.questions.length ≤ 2 ^ 40 →
        AgreesUpToTie (specScores d.questions) d.overall_score ∧
        ∀ p ∈ d.pillars,
          AgreesUpToTie (specScores (specPillarQuestions d.questions p.name)) p.avg_score) ∧
      ((∀ x ∈ specScores d.questions, 0 ≤ x ∧ x ≤ 5) →
        d.questions.length ≤ 2 ^ 20 →
        NearReference (specScores d.questions) d.overall_score ∧
        ∀ p ∈ d.pillars,
          NearReference (specScores (specPillarQuestions d.questions p.name)) p.avg_score) :=
  ⟨rfl, by decide, by decide, by decide!,
   handleScoreChange64_snapshot salesState salesRecomputed "Q3" (some 2) rfl (by decide)
     (by decide)⟩

/-! ## Override store -/

theorem lookup_map_replace {α : Type} (o : List (String × α)) (k k1 : String) (v : α) :
    (o.map (fun e => if e.1 = k then (k, v) else e)).lookup k1 =
      if k1 = k then (o.lookup k1).map (fun _ => v) else o.lookup k1 := by
  induction o with
  | nil => simp
  | cons e o ih =>
    obtain ⟨a, b⟩ := e
    by_cases ha : a = k
    · subst ha
      simp only [List.map_cons, if_true, lookup_cons_ite, ih]
      by_cases hk : k1 = a
      · simp [hk]
      · simp [hk]
    · simp only [List.map_cons, if_neg ha, lookup_cons_ite, ih]
      by_cases hk : k1 = a
      · subst hk
        simp [ha]
      · simp [hk]

theorem lookup_append_single {α : Type} (o : List (String × α)) (k k1 : String) (v : α) :
    (o ++ [(k, v)]).lookup k1 =
      match o.lookup k1 with
      | some w => some w
      | none => if k1 = k then some v else none := by
  induction o with
  | nil => simp [lookup_cons_ite]
  | cons e o ih =>
    obtain ⟨a, b⟩ := e
    simp only [List.cons_append, lookup_cons_ite, ih]
    by_cases hk : k1 = a
    · simp [hk]
    · simp [hk]

theorem any_key_eq_isSome {α : Type} (o : List (String × α)) (k : String) :
    o.any (fun e => e.1 == k) = (o.lookup k).isSome := by
  induction o with
  | nil => rfl
  | cons e o ih =>
    obtain ⟨a, b⟩ := e
    simp only [List.any_cons, lookup_cons_ite, ih]
    by_cases hk : k = a
    · subst hk
      simp
    · have : (a == k) = false := by simpa using fun e => hk e.symm
      simp [hk, this]

theorem lookup_objSet {α : Type} (o : List (String × α)) (k k1 : String) (v : α) :
    (objSet o k v).lookup k1 = if k1 = k then some v else o.lookup k1 := by
  unfold objSet
  rw [any_key_eq_isSome]
  cases hl : o.lookup k with
  | some w =>
    simp only [Option.isSome_some, if_true, lookup_map_replace]
    by_cases hk : k1 = k
    · subst hk
      simp [hl]
    · simp [hk]
  | none =>
    simp only [Option.isSome_none, Bool.false_eq_true, if_false, lookup_append_single]
    by_cases hk : k1 = k
    · subst hk
      simp [hl]
    · simp only [if_neg hk]
      cases o.lookup k1 <;> rfl

theorem lookup_objDelete {α : Type} (o : List (String × α)) (k k1 : String) :
    (objDelete o k).lookup k1 = if k1 = k then none else o.lookup k1 := by
  unfold objDelete
  induction o with
  | nil => simp
  | cons e o ih =>
    obtain ⟨a, b⟩ := e
    by_cases ha : a = k
    · subst ha
      rw [List.filter_cons_of_neg (by simp), ih, lookup_cons_ite]
      by_cases hk : k1 = a
      · simp [hk]
      · simp [hk]
    · rw [List.filter_cons_of_pos (by simpa using ha), lookup_cons_ite, lookup_cons_ite, ih]
      by_cases hk : k1 = a
      · subst hk
        simp [ha]
      · simp [hk]

theorem overridesOf_storeOverride (store : OverrideStore) (d q d1 : String) (s : Option ℚ) :
    overridesOf (storeOverride store d q s) d1 =
      if d1 = d then setOverride (overridesOf store d) q s else overridesOf store d1 := by
  have hinner : ((if (store.lookup d).isNone then objSet store d [] else store).lookup d).getD []
      = overridesOf store d := by
    unfold overridesOf
    cases hl : store.lookup d with
    | none => simp [lookup_objSet]
    | some o => simp [hl]
  unfold storeOverride
  simp only [hinner]
  unfold overridesOf
  rw [lookup_objSet]
  by_cases hd : d1 = d
  · simp only [if_pos hd, Option.getD_some]
  · simp only [if_neg hd]
    cases hl : store.lookup d with
    | none => simp [lookup_objSet, hd]
    | some o => simp

theorem mem_of_lookup {α : Type} {o : List (String × α)} {k : String} {v : α}
    (h : o.lookup k = some v) : (k, v) ∈ o := by
  induction o with
  | nil => simp at h
  | cons e o ih =>
    obtain ⟨a, b⟩ := e
    rw [lookup_cons_ite] at h
    by_cases hk : k = a
    · subst hk
      simp only [if_true, Option.some.injEq] at h
      subst h
      exact List.mem_cons_self _ _
    · rw [if_neg hk] at h
      exact List.mem_cons_of_mem _ (ih h)

theorem mem_objSet {α : Type} {o : List (String × α)} {k : String} {v : α} {e : String × α}
    (h : e ∈ objSet o k v) : e ∈ o ∨ e = (k, v) := by
  unfold objSet at h
  split at h
  · simp only [List.mem_map] at h
    obtain ⟨e0, he0, rfl⟩ := h
    by_cases hk : e0.1 = k
    · exact Or.inr (by simp [hk])
    · exact Or.inl (by simpa [hk] using he0)
  · simpa using h

theorem mem_objDelete {α : Type} {o : List (String × α)} {k : String} {e : String × α}
    (h : e ∈ objDelete o k) : e ∈ o := by
  unfold objDelete at h
  exact (List.mem_filter.1 h).1

theorem noNull_overridesOf {store : OverrideStore} (h : NoNullEntry store) (d : String) :
    ∀ e1 ∈ overridesOf store d, e1.2 ≠ none := by
  unfold overridesOf
  cases hl : store.lookup d with
  | none => simp
  | some o => exact h (d, o) (mem_of_lookup hl)

theorem noNull_storeOverride {store : OverrideStore} (h : NoNullEntry store) (d q : String)
    (s : Option ℚ) : NoNullEntry (storeOverride store d q s) := by
  have hstore1 : NoNullEntry (if (store.lookup d).isNone then objSet store d [] else store) := by
    split
    · intro e he
      rcases mem_objSet he with he | rfl
      · exact h e he
      · simp
    · exact h
  have hinner := noNull_overridesOf hstore1 d
  unfold overridesOf at hinner
  intro e he
  unfold storeOverride at he
  rcases mem_objSet he with he | rfl
  · exact hstore1 e he
  · intro e1 he1
    cases s with
    | none => exact hinner e1 (mem_objDelete he1)
    | some x =>
      rcases mem_objSet he1 with he1 | rfl
      · exact hinner e1 he1
      · simp

theorem handleScoreChange_store_eq {st : State} {data : DomainData} (qId : String)
    (s : Option ℤ) (hopen : st.currentDomainData = some data) :
    (handleScoreChange st qId s).state.scoreOverrides =
      storeOverride st.scoreOverrides data.domain qId (parsedScore s) := by
  simp only [handleScoreChange, hopen]
  split <;> rfl

/-- Claim C8: the store update of `handleScoreChange` on the open domain `d` and question
`q` inserts or replaces the entry `(d, q)` with the new score when it is non-null and
removes the entry when it is null; every other entry of `d` and every other domain is
as before; a store without null-valued entries stays without them; so reading the
overrides of `d` afterwards returns the new score for `q` exactly when it is non-null. -/
theorem handleScoreChange_store_set (st : State) (data : DomainData) (qId : String)
    (s : Option ℤ) (hopen : st.currentDomainData = some data) :
    (∀ x, parsedScore s = some x →
      (overridesOf (handleScoreChange st qId s).state.scoreOverrides data.domain).lookup qId
        = some (some x)) ∧
    (parsedScore s = none →
      (overridesOf (handleScoreChange st qId s).state.scoreOverrides data.domain).lookup qId
        = none) ∧
    (∀ q1, q1 ≠ qId →
      (overridesOf (handleScoreChange st qId s).state.scoreOverrides data.domain).lookup q1
        = (overridesOf st.scoreOverrides data.domain).lookup q1) ∧
    (∀ d1, d1 ≠ data.domain →
      overridesOf (handleScoreChange st qId s).state.scoreOverrides d1
        = overridesOf st.scoreOverrides d1) ∧
    (NoNullEntry st.scoreOverrides →
      NoNullEntry (handleScoreChange st qId s).state.scoreOverrides) := by
  rw [handleScoreChange_store_eq qId s hopen]
  refine ⟨?_, ?_, ?_, ?_, fun h => noNull_storeOverride h _ _ _⟩
  · intro x hx
    rw [overridesOf_storeOverride, if_pos rfl, hx]
    simp [setOverride, lookup_objSet]
  · intro hx
    rw [overridesOf_storeOverride, if_pos rfl, hx]
    simp [setOverride, lookup_objDelete]
  · intro q1 hq1
    rw [overridesOf_storeOverride, if_pos rfl]
    cases parsedScore s with
    | none => simp [setOverride, lookup_objDelete, hq1]
    | some x => simp [setOverride, lookup_objSet, hq1]
  · intro d1 hd1
    rw [overridesOf_storeOverride, if_neg hd1]

/-- The witness of C8: setting "Q3" of "sales" to 2 stores the entry, clearing it again
removes it. -/
theorem handleScoreChange_store_set_witness :
    (handleScoreChange salesState "Q3" (some 2)).state.scoreOverrides
      = [("sales", [("Q3", some 2)])] ∧
    (handleScoreChange (handleScoreChange salesState "Q3" (some 2)).state "Q3" none).state.scoreOverrides
      = [("sales", [])] ∧
    ((∀ x, parsedScore (some 2) = some x →
      (overridesOf (handleScoreChange salesState "Q3" (some 2)).state.scoreOverrides
        salesRecomputed.domain).lookup "Q3" = some (some x)) ∧
    (parsedScore (some 2) = none →
      (overridesOf (handleScoreChange salesState "Q3" (some 2)).state.scoreOverrides
        salesRecomputed.domain).lookup "Q3" = none) ∧
    (∀ q1, q1 ≠ "Q3" →
      (overridesOf (handleScoreChange salesState "Q3" (some 2)).state.scoreOverrides
        salesRecomputed.domain).lookup q1
        = (overridesOf salesState.scoreOverrides salesRecomputed.domain).lookup q1) ∧
    (∀ d1, d1 ≠ salesRecomputed.domain →
      overridesOf (handleScoreChange salesState "Q3" (some 2)).state.scoreOverrides d1
        = overridesOf salesState.scoreOverrides d1) ∧
    (NoNullEntry salesState.scoreOverrides →
      NoNullEntry (handleScoreChange salesState "Q3" (some 2)).state.scoreOverrides)) :=
  ⟨by decide!, by decide!, handleScoreChange_store_set salesState salesRecomputed "Q3" (some 2) rfl⟩

/-! ## Propagation to the summary cache and the matrix -/

theorem find_isSome_of_mem {α : Type} {p : α → Bool} {l : List α}
    (h : ∃ a ∈ l, p a = true) : ∃ a0, l.find? p = some a0 := by
  cases hf : l.find? p with
  | some a0 => exact ⟨a0, rfl⟩
  | none =>
    obtain ⟨a, ha, hpa⟩ := h
    have := List.find?_eq_none.1 hf a ha
    exact absurd hpa this

theorem map_copy_pillars (ps : List Pillar) :
    ps.map (fun p => Pillar.mk p.name p.avg_score p.band p.scored_count p.total_count) = ps := by
  induction ps with
  | nil => rfl
  | cons p ps ih => rw [List.map_cons, ih]

theorem find_updateSummary (all : List SummaryEntry) (d : DomainData) :
    (updateSummary all d).find? (fun e => decide (e.domain = d.domain)) =
      (all.find? (fun e => decide (e.domain = d.domain))).map
        (fun e => { e with
          overall_score := d.overall_score, overall_band := d.overall_band,
          pillars := d.pillars }) := by
  unfold updateSummary
  rw [map_copy_pillars]
  exact find_updateFirst (fun e : SummaryEntry => decide (e.domain = d.domain))
    (fun e => { e with
      overall_score := d.overall_score, overall_band := d.overall_band, pillars := d.pillars })
    (fun _ => rfl) all

theorem MatrixRow.set_domain (r : MatrixRow) (n : PillarName) (v : Option ℚ) :
    (r.set n v).domain = r.domain := by
  cases n <;> rfl

theorem MatrixRow.set_overall (r : MatrixRow) (n : PillarName) (v : Option ℚ) :
    (r.set n v).overall = r.overall := by
  cases n <;> rfl

theorem MatrixRow.get_set (r : MatrixRow) (n m : PillarName) (v : Option ℚ) :
    (r.set n v).get m = if m = n then v else r.get m := by
  cases n <;> cases m <;> rfl

theorem foldl_set_domain (ps : List Pillar) :
    ∀ r : MatrixRow, (ps.foldl (fun row p => row.set p.name p.avg_score) r).domain = r.domain := by
  induction ps with
  | nil => exact fun _ => rfl
  | cons p ps ih => exact fun r => by rw [List.foldl_cons, ih, MatrixRow.set_domain]

theorem foldl_set_overall (ps : List Pillar) :
    ∀ r : MatrixRow, (ps.foldl (fun row p => row.set p.name p.avg_score) r).overall = r.overall := by
  induction ps with
  | nil => exact fun _ => rfl
  | cons p ps ih => exact fun r => by rw [List.foldl_cons, ih, MatrixRow.set_overall]

/-- When the pillars of one name agree on `avg_score`, the loop over the pillars leaves
every written cell with that value. -/
theorem foldl_set_get (F : PillarName → Option ℚ) (ps : List Pillar)
    (hF : ∀ p ∈ ps, p.avg_score = F p.name) :
    ∀ (r : MatrixRow) (m : PillarName),
      (ps.foldl (fun row p => row.set p.name p.avg_score) r).get m =
        if m ∈ ps.map (fun p => p.name) then F m else r.get m := by
  induction ps with
  | nil => exact fun _ _ => by simp
  | cons p ps ih =>
    intro r m
    rw [List.foldl_cons, ih (fun q hq => hF q (List.mem_cons_of_mem _ hq)), MatrixRow.get_set]
    by_cases hm : m ∈ ps.map (fun p => p.name)
    · simp [hm]
    · by_cases hmp : m = p.name
      · subst hmp
        simp [hF p (List.mem_cons_self _ _)]
      · simp [hm, hmp]

theorem find_updateMatrix (ov : Overview) (d : DomainData) :
    ∃ ov1, updateMatrix (some ov) d = some ov1 ∧
      ov1.matrix.find? (fun r => decide (r.domain = d.domain)) =
        (ov.matrix.find? (fun r => decide (r.domain = d.domain))).map
          (fun r => d.pillars.foldl (fun row p => row.set p.name p.avg_score)
            { r with overall := d.overall_score }) := by
  refine ⟨_, rfl, ?_⟩
  exact find_updateFirst (fun r : MatrixRow => decide (r.domain = d.domain))
    (fun r => d.pillars.foldl (fun row p => row.set p.name p.avg_score)
      { r with overall := d.overall_score })
    (fun r => by simp only [foldl_set_domain]) ov.matrix

theorem referenceAggregates_avg (data : DomainData) :
    ∀ p ∈ (withReferenceAggregates data).pillars,
      p.avg_score = specAverage (specScores (specPillarQuestions data.questions p.name)) := by
  intro p hp
  simp only [withReferenceAggregates, List.mem_map] at hp
  obtain ⟨p0, _, rfl⟩ := hp
  rfl

/-- What the caches hold after a score change on well-formed data. -/
theorem handleScoreChange_caches {st : State} {data : DomainData} {ov : Overview} (qId : String)
    (s : Option ℤ)
    (hopen : st.currentDomainData = some data)
    (hov : st.overviewData = some ov)
    (hsum : ∃ e ∈ st.allDomains, e.domain = data.domain)
    (hrow : ∃ r ∈ ov.matrix, r.domain = data.domain)
    (hwf : ∀ q ∈ data.questions, q.pillar ∈ pillarOrder) :
    ∃ (d : DomainData) (e0 : SummaryEntry) (r0 : MatrixRow) (ov1 : Overview),
      recalcDomainAggregates (updateQuestion data qId (parsedScore s) (classify (parsedScore s)))
        = some d ∧
      d.domain = data.domain ∧
      (handleScoreChange st qId s).threw = false ∧
      (handleScoreChange st qId s).state.currentDomainData = some d ∧
      (handleScoreChange st qId s).state.allDomains.find?
          (fun e => decide (e.domain = data.domain))
        = some { e0 with
            overall_score := d.overall_score, overall_band := d.overall_band,
            pillars := d.pillars } ∧
      (handleScoreChange st qId s).state.overviewData = some ov1 ∧
      ov1.matrix.find? (fun r => decide (r.domain = data.domain)) = some r0 ∧
      r0.overall = d.overall_score ∧
      ∀ p ∈ d.pillars, r0.get p.name = p.avg_score := by
  have hwf1 : ∀ q ∈ (updateQuestion data qId (parsedScore s)
      (classify (parsedScore s))).questions, q.pillar ∈ pillarOrder :=
    setQuestionScore_pillar hwf
  have hd := recalc_of_fixed_pillars _ hwf1
  have hdom : (withReferenceAggregates (updateQuestion data qId (parsedScore s)
      (classify (parsedScore s)))).domain = data.domain := rfl
  have havg := referenceAggregates_avg
    (updateQuestion data qId (parsedScore s) (classify (parsedScore s)))
  generalize withReferenceAggregates
    (updateQuestion data qId (parsedScore s) (classify (parsedScore s))) = D at hd hdom havg
  obtain ⟨e0, he0⟩ := find_isSome_of_mem (p := fun e : SummaryEntry => decide (e.domain = data.domain))
    (by obtain ⟨e, he, h⟩ := hsum; exact ⟨e, he, by simpa using h⟩)
  obtain ⟨r0, hr0⟩ := find_isSome_of_mem (p := fun r : MatrixRow => decide (r.domain = data.domain))
    (by obtain ⟨r, hr, h⟩ := hrow; exact ⟨r, hr, by simpa using h⟩)
  obtain ⟨ov1, hov1, hfind⟩ := find_updateMatrix ov D
  have hsumD := find_updateSummary st.allDomains D
  rw [hdom] at hfind hsumD
  rw [handleScoreChange_of_recalc hopen hd]
  refine ⟨D, e0, D.pillars.foldl (fun row p => row.set p.name p.avg_score)
    { r0 with overall := D.overall_score }, ov1, hd, hdom, rfl, rfl, ?_, ?_, ?_, ?_, ?_⟩
  · show (updateSummary st.allDomains D).find? _ = _
    rw [hsumD, he0]
    rfl
  · show updateMatrix st.overviewData D = _
    rw [hov, hov1]
  · rw [hfind, hr0]
    rfl
  · rw [foldl_set_overall]
  · intro p hp
    rw [foldl_set_get (fun n => specAverage (specScores (specPillarQuestions
      (updateQuestion data qId (parsedScore s) (classify (parsedScore s))).questions n)))
      _ havg, if_pos (List.mem_map_of_mem _ hp)]
    exact (havg p hp).symm

/-- Claim C5: cache coherence of the overall score.  In a state whose open snapshot
(questions naming fixed pillars) has a summary entry in `allDomains` and a row in
`overviewData.matrix`, after `handleScoreChange` the row's `overall`, the summary
entry's `overall_score` and the snapshot's `overall_score` are one and the same value. -/
theorem handleScoreChange_overall_coherent (st : State) (data : DomainData) (ov : Overview)
    (qId : String) (s : Option ℤ)
    (hopen : st.currentDomainData = some data)
    (hov : st.overviewData = some ov)
    (hsum : ∃ e ∈ st.allDomains, e.domain = data.domain)
    (hrow : ∃ r ∈ ov.matrix, r.domain = data.domain)
    (hwf : ∀ q ∈ data.questions, q.pillar ∈ pillarOrder) :
    (handleScoreChange st qId s).threw = false ∧
    ∃ (d : DomainData) (e : SummaryEntry) (r : MatrixRow) (ov1 : Overview),
      (handleScoreChange st qId s).state.currentDomainData = some d ∧
      d.domain = data.domain ∧
      (handleScoreChange st qId s).state.allDomains.find?
        (fun e => decide (e.domain = data.domain)) = some e ∧
      (handleScoreChange st qId s).state.overviewData = some ov1 ∧
      ov1.matrix.find? (fun r => decide (r.domain = data.domain)) = some r ∧
      r.overall = e.overall_score ∧ e.overall_score = d.overall_score := by
  obtain ⟨d, e0, r0, ov1, _, hdom, hret, hcur, hsumE, hov1, hfind, hoverall, _⟩ :=
    handleScoreChange_caches qId s hopen hov hsum hrow hwf
  exact ⟨hret, d, _, r0, ov1, hcur, hdom, hsumE, hov1, hfind, hoverall, rfl⟩

/-- The witness of C5: after setting "Q3" of "sales" to 2 the row, the summary entry and
the snapshot all hold 3.33. -/
theorem handleScoreChange_overall_coherent_witness :
    ((handleScoreChange salesState "Q3" (some 2)).state.currentDomainData.map
        (fun d => d.overall_score) = some (some (333 / 100)) ∧
      ((handleScoreChange salesState "Q3" (some 2)).state.allDomains.find?
        (fun e => decide (e.domain = "sales"))).map (fun e => e.overall_score)
          = some (some (333 / 100)) ∧
      ((handleScoreChange salesState "Q3" (some 2)).state.overviewData.bind
        (fun o => o.matrix.find? (fun r => decide (r.domain = "sales")))).map
          (fun r => r.overall) = some (some (333 / 100))) ∧
    (handleScoreChange salesState "Q3" (some 2)).threw = false ∧
    ∃ (d : DomainData) (e : SummaryEntry) (r : MatrixRow) (ov1 : Overview),
      (handleScoreChange salesState "Q3" (some 2)).state.currentDomainData = some d ∧
      d.domain = salesRecomputed.domain ∧
      (handleScoreChange salesState "Q3" (some 2)).state.allDomains.find?
        (fun e => decide (e.domain = salesRecomputed.domain)) = some e ∧
      (handleScoreChange salesState "Q3" (some 2)).state.overviewData = some ov1 ∧
      ov1.matrix.find? (fun r => decide (r.domain = salesRecomputed.domain)) = some r ∧
      r.overall = e.overall_score ∧ e.overall_score = d.overall_score :=
  ⟨by decide!,
   handleScoreChange_overall_coherent salesState salesRecomputed salesMatrix "Q3" (some 2)
     rfl rfl (by decide) (by decide) (by decide)⟩

/-- Claim C10: propagation of the pillar aggregates.  In a state whose open snapshot
(questions naming fixed pillars) has a summary entry and a matrix row, after
`handleScoreChange` the summary entry's `overall_band` and `pillars` equal, field for
field, the freshly recomputed `overall_band` and `pillars` of the snapshot, and the
matrix row's cell of every pillar of the snapshot equals that pillar's freshly
recomputed `avg_score`. -/
theorem handleScoreChange_propagates_pillars (st : State) (data : DomainData) (ov : Overview)
    (qId : String) (s : Option ℤ)
    (hopen : st.currentDomainData = some data)
    (hov : st.overviewData = some ov)
    (hsum : ∃ e ∈ st.allDomains, e.domain = data.domain)
    (hrow : ∃ r ∈ ov.matrix, r.domain = data.domain)
    (hwf : ∀ q ∈ data.questions, q.pillar ∈ pillarOrder) :
    (handleScoreChange st qId s).threw = false ∧
    ∃ (d : DomainData) (e : SummaryEntry) (r : MatrixRow) (ov1 : Overview),
      recalcDomainAggregates (updateQuestion data qId (parsedScore s) (classify (parsedScore s)))
        = some d ∧
      (handleScoreChange st qId s).state.currentDomainData = some d ∧
      (handleScoreChange st qId s).state.allDomains.find?
        (fun e => decide (e.domain = data.domain)) = some e ∧
      (handleScoreChange st qId s).state.overviewData = some ov1 ∧
      ov1.matrix.find? (fun r => decide (r.domain = data.domain)) = some r ∧
      e.overall_band = d.overall_band ∧
      e.pillars = d.pillars ∧
      ∀ p ∈ d.pillars, r.get p.name = p.avg_score := by
  obtain ⟨d, e0, r0, ov1, hrec, _, hret, hcur, hsumE, hov1, hfind, _, hcells⟩ :=
    handleScoreChange_caches qId s hopen hov hsum hrow hwf
  exact ⟨hret, d, _, r0, ov1, hrec, hcur, hsumE, hov1, hfind, rfl, rfl, hcells⟩

/-- The witness of C10: after setting "Q3" of "sales" to 2 the summary entry and the
row of "sales" hold Domain Ownership 2.00 and Data as a Product 4.00. -/
theorem handleScoreChange_propagates_pillars_witness :
    (((handleScoreChange salesState "Q3" (some 2)).state.allDomains.find?
        (fun e => decide (e.domain = "sales"))).map
          (fun e => (e.overall_band, e.pillars.map (fun p => (p.name, p.avg_score, p.band))))
        = some (Band.Defined,
            [(PillarName.DomainOwnership, some 2, Band.Developing),
             (PillarName.DataAsAProduct, some 4, Band.Managed),
             (PillarName.SelfServeDataPlatform, none, Band.NotAssessed),
             (PillarName.FederatedGovernance, none, Band.NotAssessed)]) ∧
      ((handleScoreChange salesState "Q3" (some 2)).state.overviewData.bind
        (fun o => o.matrix.find? (fun r => decide (r.domain = "sales")))).map
          (fun r => (r.domainOwnership, r.dataAsAProduct, r.selfServeDataPlatform,
            r.federatedGovernance)) = some (some 2, some 4, none, none)) ∧
    (handleScoreChange salesState "Q3" (some 2)).threw = false ∧
    ∃ (d : DomainData) (e : SummaryEntry) (r : MatrixRow) (ov1 : Overview),
      recalcDomainAggregates
        (updateQuestion salesRecomputed "Q3" (parsedScore (some 2))
          (classify (parsedScore (some 2)))) = some d ∧
      (handleScoreChange salesState "Q3" (some 2)).state.currentDomainData = some d ∧
      (handleScoreChange salesState "Q3" (some 2)).state.allDomains.find?
        (fun e => decide (e.domain = salesRecomputed.domain)) = some e ∧
      (handleScoreChange salesState "Q3" (some 2)).state.overviewData = some ov1 ∧
      ov1.matrix.find? (fun r => decide (r.domain = salesRecomputed.domain)) = some r ∧
      e.overall_band = d.overall_band ∧
      e.pillars = d.pillars ∧
      ∀ p ∈ d.pillars, r.get p.name = p.avg_score :=
  ⟨by decide!,
   handleScoreChange_propagates_pillars salesState salesRecomputed salesMatrix "Q3" (some 2)
     rfl rfl (by decide) (by decide) (by decide)⟩

/-! ## Idempotence -/

theorem updateFirst_idem {α : Type} (p : α → Bool) (f : α → α) (hp : ∀ a, p (f a) = p a)
    (hf : ∀ a, f (f a) = f a) (l : List α) :
    updateFirst p f (updateFirst p f l) = updateFirst p f l := by
  induction l with
  | nil => rfl
  | cons a l ih =>
    by_cases h : p a = true
    · have h2 : p (f a) = true := by rw [hp, h]
      simp only [updateFirst, h, if_true, h2, hf]
    · have : updateFirst p f (a :: l) = a :: updateFirst p f l := by
        simp only [updateFirst, h, if_false]
        rfl
      rw [this]
      simp only [updateFirst, h]
      simp [ih]

theorem setQuestionScore_idem (qs : List Question) (qId : String) (s : Option ℚ) (b : Band) :
    setQuestionScore (setQuestionScore qs qId s b) qId s b = setQuestionScore qs qId s b :=
  updateFirst_idem (fun q : Question => decide (q.id = qId))
    (fun q => { q with score := s, band := b }) (fun _ => rfl) (fun _ => rfl) qs

theorem map_replace_idem {α : Type} (o : List (String × α)) (k : String) (v : α) :
    (o.map (fun e => if e.1 = k then (k, v) else e)).map (fun e => if e.1 = k then (k, v) else e)
      = o.map (fun e => if e.1 = k then (k, v) else e) := by
  rw [List.map_map]
  apply List.map_congr_left
  intro e _
  by_cases h : e.1 = k
  · simp [h]
  · simp [h]

theorem map_replace_of_absent {α : Type} (o : List (String × α)) (k : String) (v : α)
    (h : o.lookup k = none) : o.map (fun e => if e.1 = k then (k, v) else e) = o := by
  induction o with
  | nil => rfl
  | cons e o ih =>
    obtain ⟨a, b⟩ := e
    rw [lookup_cons_ite] at h
    by_cases hk : k = a
    · simp [hk] at h
    · rw [if_neg hk] at h
      have hak : ¬ a = k := fun e => hk e.symm
      simp only [List.map_cons, if_neg hak, ih h]

theorem objSet_of_present {α : Type} {o : List (String × α)} {k : String} (v : α)
    (h : (o.lookup k).isSome = true) :
    objSet o k v = o.map (fun e => if e.1 = k then (k, v) else e) := by
  unfold objSet
  rw [any_key_eq_isSome, h, if_pos rfl]

theorem objSet_of_absent {α : Type} {o : List (String × α)} {k : String} (v : α)
    (h : o.lookup k = none) : objSet o k v = o ++ [(k, v)] := by
  unfold objSet
  rw [any_key_eq_isSome, h]
  rfl

theorem objSet_idem {α : Type} (o : List (String × α)) (k : String) (v : α) :
    objSet (objSet o k v) k v = objSet o k v := by
  have hsome : ((objSet o k v).lookup k).isSome = true := by simp [lookup_objSet]
  rw [objSet_of_present v hsome]
  cases hl : o.lookup k with
  | some w =>
    rw [objSet_of_present v (by simp [hl])]
    exact map_replace_idem o k v
  | none =>
    rw [objSet_of_absent v hl]
    simp only [List.map_append, List.map_cons, List.map_nil, if_true,
      map_replace_of_absent o k v hl]

theorem objDelete_idem {α : Type} (o : List (String × α)) (k : String) :
    objDelete (objDelete o k) k = objDelete o k := by
  unfold objDelete
  rw [List.filter_filter]
  simp

theorem setOverride_idem (o : Overrides) (q : String) (s : Option ℚ) :
    setOverride (setOverride o q s) q s = setOverride o q s := by
  cases s with
  | none => exact objDelete_idem o q
  | some x => exact objSet_idem o q (some x)

theorem storeOverride_eq (store : OverrideStore) (d q : String) (s : Option ℚ) :
    storeOverride store d q s =
      objSet (if (store.lookup d).isNone then objSet store d [] else store) d
        (setOverride (overridesOf store d) q s) := by
  have hinner : ((if (store.lookup d).isNone then objSet store d [] else store).lookup d).getD []
      = overridesOf store d := by
    unfold overridesOf
    cases hl : store.lookup d with
    | none => simp [lookup_objSet]
    | some o => simp [hl]
  unfold storeOverride
  simp only [hinner]

theorem storeOverride_idem (store : OverrideStore) (d q : String) (s : Option ℚ) :
    storeOverride (storeOverride store d q s) d q s = storeOverride store d q s := by
  have hsome : ((storeOverride store d q s).lookup d).isNone = false := by
    rw [storeOverride_eq]
    simp [lookup_objSet]
  rw [storeOverride_eq (storeOverride store d q s), hsome, overridesOf_storeOverride,
    if_pos rfl, setOverride_idem]
  simp only [Bool.false_eq_true, if_false]
  rw [storeOverride_eq]
  exact objSet_idem _ _ _

theorem withReferenceAggregates_idem (data : DomainData) :
    withReferenceAggregates (withReferenceAggregates data) = withReferenceAggregates data := by
  simp only [withReferenceAggregates, List.map_map, Function.comp_def]

theorem recalc_fixpoint {data d : DomainData} (h : recalcDomainAggregates data = some d) :
    recalcDomainAggregates d = some d := by
  have hd := recalc_some h
  subst hd
  rw [recalc_eq_map] at h ⊢
  cases hc : collectScores data.questions (pillarOrder.map (fun p => (p, []))) with
  | none => simp [hc] at h
  | some ps =>
    have hq : (withReferenceAggregates data).questions = data.questions := rfl
    rw [hq, hc, Option.map_some', withReferenceAggregates_idem]

theorem updateQuestion_idem (data : DomainData) (qId : String) (s : Option ℚ) (b : Band) :
    updateQuestion (updateQuestion data qId s b) qId s b = updateQuestion data qId s b := by
  simp only [updateQuestion, setQuestionScore_idem]

theorem updateQuestion_recalc {data d : DomainData} {qId : String} {s : Option ℚ} {b : Band}
    (h : recalcDomainAggregates (updateQuestion data qId s b) = some d) :
    updateQuestion d qId s b = d := by
  have hd := recalc_some h
  subst hd
  simp only [updateQuestion, withReferenceAggregates, setQuestionScore_idem]

theorem updateSummary_idem (all : List SummaryEntry) (d : DomainData) :
    updateSummary (updateSummary all d) d = updateSummary all d :=
  updateFirst_idem (fun e : SummaryEntry => decide (e.domain = d.domain))
    (fun e => { e with
      overall_score := d.overall_score, overall_band := d.overall_band,
      pillars := d.pillars.map (fun p =>
        Pillar.mk p.name p.avg_score p.band p.scored_count p.total_count) })
    (fun _ => rfl) (fun _ => rfl) all

theorem MatrixRow.ext_get {r1 r2 : MatrixRow} (hd : r1.domain = r2.domain)
    (ho : r1.overall = r2.overall) (hg : ∀ n, r1.get n = r2.get n) : r1 = r2 := by
  have h1 := hg .DomainOwnership
  have h2 := hg .DataAsAProduct
  have h3 := hg .SelfServeDataPlatform
  have h4 := hg .FederatedGovernance
  cases r1
  cases r2
  simp only [MatrixRow.get] at h1 h2 h3 h4
  simp only at hd ho
  subst hd ho h1 h2 h3 h4
  rfl

theorem MatrixRow.get_with_overall (r : MatrixRow) (o : Option ℚ) (n : PillarName) :
    ({ r with overall := o } : MatrixRow).get n = r.get n := by
  cases n <;> rfl

theorem updateMatrix_idem (ovd : Option Overview) (data : DomainData) :
    updateMatrix (updateMatrix ovd (withReferenceAggregates data)) (withReferenceAggregates data)
      = updateMatrix ovd (withReferenceAggregates data) := by
  cases ovd with
  | none => rfl
  | some ov =>
    have havg := referenceAggregates_avg data
    generalize withReferenceAggregates data = D at havg
    simp only [updateMatrix, Option.some.injEq, Overview.mk.injEq]
    apply updateFirst_idem
    · intro r
      simp only [foldl_set_domain]
    · intro r
      apply MatrixRow.ext_get
      · simp only [foldl_set_domain]
      · simp only [foldl_set_overall]
      · intro n
        have hget := foldl_set_get (fun n => specAverage (specScores
          (specPillarQuestions data.questions n))) D.pillars havg
        rw [hget, hget, MatrixRow.get_with_overall, MatrixRow.get_with_overall, hget]
        by_cases hn : n ∈ D.pillars.map (fun p => p.name)
        · simp only [if_pos hn]
        · simp only [if_neg hn, MatrixRow.get_with_overall]

theorem handleScoreChange_of_throw {st : State} {data : DomainData} {qId : String}
    {s : Option ℤ} (hopen : st.currentDomainData = some data)
    (hr : recalcDomainAggregates
      (updateQuestion data qId (parsedScore s) (classify (parsedScore s))) = none) :
    handleScoreChange st qId s =
      { state :=
          { st with
            currentDomainData :=
              some (updateQuestion data qId (parsedScore s) (classify (parsedScore s))),
            scoreOverrides := storeOverride st.scoreOverrides data.domain qId (parsedScore s),
            saved := st.saved ++ [(data.domain, qId, parsedScore s)] },
        threw := true } := by
  simp only [handleScoreChange, getBand_scoreValue, hopen, hr]

/-- Claim C6: `handleScoreChange` is idempotent.  From every state and for every question
id and new score, a second call right after the first leaves the domain snapshot, the
override store, the summary cache and the matrix exactly as the first call left them. -/
theorem handleScoreChange_idempotent (st : State) (qId : String) (s : Option ℤ) :
    (handleScoreChange (handleScoreChange st qId s).state qId s).state.currentDomainData
      = (handleScoreChange st qId s).state.currentDomainData ∧
    (handleScoreChange (handleScoreChange st qId s).state qId s).state.scoreOverrides
      = (handleScoreChange st qId s).state.scoreOverrides ∧
    (handleScoreChange (handleScoreChange st qId s).state qId s).state.allDomains
      = (handleScoreChange st qId s).state.allDomains ∧
    (handleScoreChange (handleScoreChange st qId s).state qId s).state.overviewData
      = (handleScoreChange st qId s).state.overviewData ∧
    (handleScoreChange (handleScoreChange st qId s).state qId s).threw
      = (handleScoreChange st qId s).threw := by
  cases hcur : st.currentDomainData with
  | none =>
    have h1 : handleScoreChange st qId s = { state := st, threw := false } := by
      simp only [handleScoreChange, hcur]
    rw [h1, h1]
    exact ⟨rfl, rfl, rfl, rfl, rfl⟩
  | some data =>
    cases hr : recalcDomainAggregates
        (updateQuestion data qId (parsedScore s) (classify (parsedScore s))) with
    | none =>
      rw [handleScoreChange_of_throw hcur hr]
      have hr2 : recalcDomainAggregates
          (updateQuestion (updateQuestion data qId (parsedScore s) (classify (parsedScore s)))
            qId (parsedScore s) (classify (parsedScore s))) = none := by
        rw [updateQuestion_idem, hr]
      rw [handleScoreChange_of_throw rfl hr2]
      refine ⟨?_, ?_, rfl, rfl, rfl⟩
      · simp only [updateQuestion_idem]
      · exact storeOverride_idem _ _ _ _
    | some d =>
      rw [handleScoreChange_of_recalc hcur hr]
      have hdom : d.domain = data.domain := by
        rw [recalc_some hr]
        rfl
      have hr2 : recalcDomainAggregates
          (updateQuestion d qId (parsedScore s) (classify (parsedScore s))) = some d := by
        rw [updateQuestion_recalc hr, recalc_fixpoint hr]
      rw [handleScoreChange_of_recalc rfl hr2, hdom]
      refine ⟨rfl, storeOverride_idem _ _ _ _, updateSummary_idem _ _, ?_, rfl⟩
      show updateMatrix (updateMatrix st.overviewData d) d = updateMatrix st.overviewData d
      rw [recalc_some hr]
      exact updateMatrix_idem _ _

/-! ## No validation of the new score -/

theorem handleScoreChange_questions {st : State} {data : DomainData} (qId : String)
    (s : Option ℤ) (hopen : st.currentDomainData = some data) :
    ∃ d, (handleScoreChange st qId s).state.currentDomainData = some d ∧
      d.domain = data.domain ∧
      d.questions =
        setQuestionScore data.questions qId (parsedScore s) (classify (parsedScore s)) := by
  cases hr : recalcDomainAggregates
      (updateQuestion data qId (parsedScore s) (classify (parsedScore s))) with
  | none =>
    rw [handleScoreChange_of_throw hopen hr]
    exact ⟨_, rfl, rfl, rfl⟩
  | some d =>
    rw [handleScoreChange_of_recalc hopen hr]
    refine ⟨d, rfl, ?_, ?_⟩
    · rw [recalc_some hr]
      rfl
    · rw [recalc_some hr]
      rfl

theorem handleScoreChange_saved {st : State} {data : DomainData} (qId : String)
    (s : Option ℤ) (hopen : st.currentDomainData = some data) :
    (handleScoreChange st qId s).state.saved = st.saved ++ [(data.domain, qId, parsedScore s)] := by
  simp only [handleScoreChange, hopen]
  split <;> rfl

theorem find_setQuestionScore_of_mem {qs : List Question} {qId : String}
    (hq : ∃ q ∈ qs, q.id = qId) (s : Option ℚ) (b : Band) :
    ∃ q, (setQuestionScore qs qId s b).find? (fun q => decide (q.id = qId)) = some q ∧
      q.score = s ∧ q.band = b := by
  rw [find_setQuestionScore]
  obtain ⟨q, hq1, hq2⟩ := hq
  cases hf : qs.find? (fun q => decide (q.id = qId)) with
  | none =>
    have := List.find?_eq_none.1 hf q hq1
    simp [hq2] at this
  | some q0 => exact ⟨_, rfl, rfl, rfl⟩

theorem dropdownValues_range :
    ∀ v ∈ dropdownValues, v = none ∨ ∃ m : ℤ, v = some m ∧ 1 ≤ m ∧ m ≤ 5 := by
  decide

/-- Counterexample to C7 as stated: the value 7 is not rejected.  In the "sales" session
the call for question "Q1" with 7 returns normally, changes the state, writes 7 into the
question and the override store, recomputes the overall score to 6.00, and logs a
persist call. -/
theorem handleScoreChange_accepts_seven :
    (handleScoreChange salesState "Q1" (some 7)).threw = false ∧
    (handleScoreChange salesState "Q1" (some 7)).state ≠ salesState ∧
    ((handleScoreChange salesState "Q1" (some 7)).state.currentDomainData.map
      (fun d => (d.questions.map (fun q => q.score), d.overall_score)))
        = some ([some 7, some 5, none], some 6) ∧
    (handleScoreChange salesState "Q1" (some 7)).state.scoreOverrides
      = [("sales", [("Q1", some 7)])] ∧
    (handleScoreChange salesState "Q1" (some 7)).state.saved = [("sales", "Q1", some 7)] := by
  decide!

/-- Claim C7, amended: `handleScoreChange` does not validate the new score.  For every
integer `n` (0, 6, 7, ...) the call on an open snapshot is carried out as for 1 to 5:
the question with id `qId` gets score `n` and band `classify n`, the override store maps
the pair of the open domain and `qId` to `n`, and one persist call for it is logged.
Scores stay within null, 1, ..., 5 only because the dropdown offers no other value. -/
theorem handleScoreChange_no_validation (st : State) (data : DomainData) (qId : String) (n : ℤ)
    (hopen : st.currentDomainData = some data)
    (hq : ∃ q ∈ data.questions, q.id = qId) :
    (∃ d q, (handleScoreChange st qId (some n)).state.currentDomainData = some d ∧
      d.questions.find? (fun q => decide (q.id = qId)) = some q ∧
      q.score = some (n : ℚ) ∧ q.band = classify (some (n : ℚ))) ∧
    (overridesOf (handleScoreChange st qId (some n)).state.scoreOverrides data.domain).lookup qId
      = some (some (n : ℚ)) ∧
    (handleScoreChange st qId (some n)).state.saved
      = st.saved ++ [(data.domain, qId, some (n : ℚ))] ∧
    (∀ v ∈ dropdownValues, v = none ∨ ∃ m : ℤ, v = some m ∧ 1 ≤ m ∧ m ≤ 5) := by
  refine ⟨?_, ?_, handleScoreChange_saved qId (some n) hopen, dropdownValues_range⟩
  · obtain ⟨d, hd, _, hqs⟩ := handleScoreChange_questions qId (some n) hopen
    obtain ⟨q, hfind, hs, hb⟩ := find_setQuestionScore_of_mem hq (parsedScore (some n))
      (classify (parsedScore (some n)))
    exact ⟨d, q, hd, by rw [hqs]; exact hfind, hs, hb⟩
  · rw [handleScoreChange_store_eq qId (some n) hopen, overridesOf_storeOverride, if_pos rfl]
    simp [parsedScore, setOverride, lookup_objSet]

/-- The witness of the amended C7: the value 0 on question "Q2" of "sales". -/
theorem handleScoreChange_no_validation_witness :
    (∃ d q, (handleScoreChange salesState "Q2" (some 0)).state.currentDomainData = some d ∧
      d.questions.find? (fun q => decide (q.id = "Q2")) = some q ∧
      q.score = some ((0 : ℤ) : ℚ) ∧ q.band = classify (some ((0 : ℤ) : ℚ))) ∧
    (overridesOf (handleScoreChange salesState "Q2" (some 0)).state.scoreOverrides
      salesRecomputed.domain).lookup "Q2" = some (some ((0 : ℤ) : ℚ)) ∧
    (handleScoreChange salesState "Q2" (some 0)).state.saved
      = salesState.saved ++ [(salesRecomputed.domain, "Q2", some ((0 : ℤ) : ℚ))] ∧
    (∀ v ∈ dropdownValues, v = none ∨ ∃ m : ℤ, v = some m ∧ 1 ≤ m ∧ m ≤ 5) :=
  handleScoreChange_no_validation salesState salesRecomputed "Q2" 0 rfl (by decide)

/-! ## Overrides on load -/

theorem setQuestionScore_ids (qs : List Question) (k : String) (s : Option ℚ) (b : Band) :
    (setQuestionScore qs k s b).map (fun q => q.id) = qs.map (fun q => q.id) := by
  unfold setQuestionScore
  induction qs with
  | nil => rfl
  | cons q qs ih =>
    unfold updateFirst
    split
    · rfl
    · simp only [List.map_cons, ih]

/-- With distinct question ids, updating the first question of an id is updating every
question of that id. -/
theorem setQuestionScore_eq_map (qs : List Question) (k : String) (s : Option ℚ) (b : Band)
    (hids : (qs.map (fun q => q.id)).Nodup) :
    setQuestionScore qs k s b =
      qs.map (fun q => if q.id = k then { q with score := s, band := b } else q) := by
  unfold setQuestionScore
  induction qs with
  | nil => rfl
  | cons q qs ih =>
    rw [List.map_cons, List.nodup_cons] at hids
    unfold updateFirst
    by_cases hk : q.id = k
    · have hrest : qs.map (fun q => if q.id = k then { q with score := s, band := b } else q)
          = qs := by
        conv_rhs => rw [← List.map_id qs]
        apply List.map_congr_left
        intro q1 hq1
        have : ¬ q1.id = k := by
          intro e
          apply hids.1
          rw [hk, ← e]
          exact List.mem_map_of_mem (fun q => q.id) hq1
        simp [this]
      simp only [hk, decide_True, if_true, List.map_cons, hrest]
    · simp only [hk, decide_False, Bool.false_eq_true, if_false, List.map_cons, ih hids.2]

theorem foldl_overrides_eq_map (val : String → Option ℚ) (ks : List String) :
    ∀ qs : List Question, (qs.map (fun q => q.id)).Nodup →
      ks.foldl (fun qs qId => setQuestionScore qs qId (val qId) (getBand (scoreValue (val qId))))
        qs =
      qs.map (fun q =>
        if q.id ∈ ks then { q with score := val q.id, band := classify (val q.id) } else q) := by
  induction ks with
  | nil =>
    intro qs _
    simp
  | cons k ks ih =>
    intro qs hids
    rw [List.foldl_cons, ih _ (by rw [setQuestionScore_ids]; exact hids),
      setQuestionScore_eq_map qs k _ _ hids, List.map_map]
    apply List.map_congr_left
    intro q _
    by_cases hk : q.id = k
    · subst hk
      simp [getBand_scoreValue]
    · have hk2 : ¬ k = q.id := fun e => hk e.symm
      simp [hk, hk2]

theorem mem_keys_iff_lookup {α : Type} (o : List (String × α)) (k : String) :
    k ∈ o.map (fun e => e.1) ↔ (o.lookup k).isSome = true := by
  induction o with
  | nil => simp
  | cons e o ih =>
    obtain ⟨a, b⟩ := e
    rw [List.map_cons, List.mem_cons, lookup_cons_ite, ih]
    by_cases hk : k = a
    · simp [hk]
    · simp [hk]

/-- The override loop of `loadDomainDetail` computes the reference `applyOverrides` when
the question ids are distinct. -/
theorem applyOverrides_eq_spec (qs : List Question) (ov : Overrides)
    (hids : (qs.map (fun q => q.id)).Nodup) :
    applyOverrides qs ov = specApplyOverrides qs ov := by
  unfold applyOverrides specApplyOverrides
  rw [foldl_overrides_eq_map (fun k => (ov.lookup k).join) _ qs hids]
  apply List.map_congr_left
  intro q _
  have hmem := mem_keys_iff_lookup ov q.id
  cases hl : ov.lookup q.id with
  | none =>
    rw [hl] at hmem
    have : ¬ q.id ∈ ov.map (fun e => e.1) := fun h => by simpa using hmem.1 h
    simp only [if_neg this]
  | some v =>
    rw [hl] at hmem
    have : q.id ∈ ov.map (fun e => e.1) := hmem.2 rfl
    simp only [if_pos this]
    rfl

theorem specApplyOverrides_pillar {qs : List Question} (ov : Overrides)
    (h : ∀ q ∈ qs, q.pillar ∈ pillarOrder) :
    ∀ q ∈ specApplyOverrides qs ov, q.pillar ∈ pillarOrder := by
  intro q hq
  simp only [specApplyOverrides, List.mem_map] at hq
  obtain ⟨q0, hq0, rfl⟩ := hq
  cases ov.lookup q0.id with
  | none => exact h q0 hq0
  | some v => exact h q0 hq0

theorem loadDomainDetail_eq (st : State) (domain : String) (fetched : DomainData)
    (hids : (fetched.questions.map (fun q => q.id)).Nodup)
    (hwf : ∀ q ∈ fetched.questions, q.pillar ∈ pillarOrder) :
    loadDomainDetail st domain fetched =
      { state := { st with currentDomainData := some (withReferenceAggregates
          { fetched with questions :=
              specApplyOverrides fetched.questions (overridesOf st.scoreOverrides domain) }) },
        threw := false } := by
  have hrec := recalc_of_fixed_pillars
    { fetched with questions :=
        specApplyOverrides fetched.questions (overridesOf st.scoreOverrides domain) }
    (specApplyOverrides_pillar _ hwf)
  simp only [loadDomainDetail, applyOverrides_eq_spec _ _ hids, hrec]

theorem loadDomainDetail_store (st : State) (domain : String) (fetched : DomainData) :
    (loadDomainDetail st domain fetched).state.scoreOverrides = st.scoreOverrides := by
  simp only [loadDomainDetail]
  split <;> rfl

/-- Claim C9: overrides are applied on load.  For a fetched domain detail (distinct
question ids, questions naming fixed pillars) and any override store,
`loadDomainDetail` installs a snapshot whose questions are the fetched ones with every
question whose id has an entry in the store for that domain carrying the override value
as score and `classify` of it as band, and every other question as fetched.  Hence an
override set by `handleScoreChange` with a non-null score is in force on the question
again after another domain was loaded and the domain is loaded anew. -/
theorem loadDomainDetail_applies_overrides (st : State) (domain : String) (fetched : DomainData)
    (hids : (fetched.questions.map (fun q => q.id)).Nodup)
    (hwf : ∀ q ∈ fetched.questions, q.pillar ∈ pillarOrder) :
    (∃ d, (loadDomainDetail st domain fetched).threw = false ∧
      (loadDomainDetail st domain fetched).state.currentDomainData = some d ∧
      d.questions = specApplyOverrides fetched.questions (overridesOf st.scoreOverrides domain) ∧
      (∀ q ∈ fetched.questions, ∀ v,
        (overridesOf st.scoreOverrides domain).lookup q.id = some v →
          ∃ q1 ∈ d.questions, q1.id = q.id ∧ q1.score = v ∧ q1.band = classify v) ∧
      (∀ q ∈ fetched.questions,
        (overridesOf st.scoreOverrides domain).lookup q.id = none → q ∈ d.questions)) ∧
    (∀ (st0 : State) (data0 : DomainData) (qId : String) (n : ℤ) (other : String)
        (fetchedOther : DomainData),
      st0.currentDomainData = some data0 → data0.domain = domain →
      (∃ q ∈ fetched.questions, q.id = qId) →
      ∃ d q,
        (loadDomainDetail
          (loadDomainDetail (handleScoreChange st0 qId (some n)).state other fetchedOther).state
          domain fetched).state.currentDomainData = some d ∧
        q ∈ d.questions ∧ q.id = qId ∧ q.score = some (n : ℚ) ∧
        q.band = classify (some (n : ℚ))) := by
  constructor
  · rw [loadDomainDetail_eq st domain fetched hids hwf]
    refine ⟨_, rfl, rfl, rfl, ?_, ?_⟩
    · intro q hq v hv
      refine ⟨{ q with score := v, band := classify v }, ?_, rfl, rfl, rfl⟩
      show _ ∈ specApplyOverrides fetched.questions _
      simp only [specApplyOverrides, List.mem_map]
      exact ⟨q, hq, by rw [hv]⟩
    · intro q hq hv
      show _ ∈ specApplyOverrides fetched.questions _
      simp only [specApplyOverrides, List.mem_map]
      exact ⟨q, hq, by rw [hv]⟩
  · intro st0 data0 qId n other fetchedOther hopen hdom hq
    rw [loadDomainDetail_eq _ domain fetched hids hwf, loadDomainDetail_store,
      handleScoreChange_store_eq qId (some n) hopen, hdom, overridesOf_storeOverride,
      if_pos rfl]
    obtain ⟨q, hq1, hq2⟩ := hq
    have hl : (setOverride (overridesOf st0.scoreOverrides domain) qId
        (parsedScore (some n))).lookup q.id = some (some (n : ℚ)) := by
      simp [parsedScore, setOverride, lookup_objSet, hq2]
    refine ⟨_, { q with score := some (n : ℚ), band := classify (some (n : ℚ)) }, rfl, ?_, hq2,
      rfl, rfl⟩
    show _ ∈ specApplyOverrides fetched.questions _
    simp only [specApplyOverrides, List.mem_map]
    exact ⟨q, hq1, by rw [hl]⟩

/-- The witness of C9: "Q3" of "sales" is set to 2, "finance" is loaded, and "sales" is
loaded again from the fetched detail: "Q3" shows 2 and the other questions their
fetched scores. -/
theorem loadDomainDetail_applies_overrides_witness :
    ((loadDomainDetail
        (loadDomainDetail (handleScoreChange salesState "Q3" (some 2)).state "finance"
          financeDomain).state
        "sales" salesDomain).state.currentDomainData.map
      (fun d => d.questions.map (fun q => (q.id, q.score, q.band))))
      = some [("Q1", some 3, Band.Defined), ("Q2", some 5, Band.Optimized),
          ("Q3", some 2, Band.Developing)] ∧
    ∃ d, (loadDomainDetail (handleScoreChange salesState "Q3" (some 2)).state "sales"
        salesDomain).threw = false ∧
      (loadDomainDetail (handleScoreChange salesState "Q3" (some 2)).state "sales"
        salesDomain).state.currentDomainData = some d ∧
      d.questions = specApplyOverrides salesDomain.questions
        (overridesOf (handleScoreChange salesState "Q3" (some 2)).state.scoreOverrides "sales") :=
  ⟨by decide!,
   let ⟨d, h1, h2, h3, _⟩ :=
     (loadDomainDetail_applies_overrides (handleScoreChange salesState "Q3" (some 2)).state
       "sales" salesDomain (by decide) (by decide)).1
   ⟨d, h1, h2, h3⟩⟩

/-! ## Clearing an override -/

theorem find_map_of_fixed {α : Type} (p : α → Bool) (g : α → α) (hp : ∀ a, p (g a) = p a)
    (hg : ∀ a, p a = true → g a = a) (l : List α) : (l.map g).find? p = l.find? p := by
  induction l with
  | nil => rfl
  | cons a l ih =>
    by_cases h : p a = true
    · simp [List.find?_cons, hp, h, hg a h]
    · simp [List.find?_cons, hp, h, ih]

theorem find_specApplyOverrides_of_absent (qs : List Question) (ov : Overrides) (qId : String)
    (h : ov.lookup qId = none) :
    (specApplyOverrides qs ov).find? (fun q => decide (q.id = qId)) =
      qs.find? (fun q => decide (q.id = qId)) := by
  unfold specApplyOverrides
  apply find_map_of_fixed
  · intro q
    cases ov.lookup q.id <;> rfl
  · intro q hq
    have hq2 : q.id = qId := by simpa using hq
    rw [hq2, h]

/-- For every open snapshot and every question of it: after `handleScoreChange` with 5 and
then with the empty value the question's score in the snapshot is null and its band Not
Assessed, whatever the score was before, and the override entry of the question is gone
from the store; the question shows its fetched score again once the domain detail is
loaded anew.  The scores of the questions do not depend on the arithmetic. -/
theorem handleScoreChange_clear_writes_null (st : State) (data : DomainData) (qId : String)
    (hopen : st.currentDomainData = some data)
    (hq : ∃ q ∈ data.questions, q.id = qId) :
    (∃ d q,
      (handleScoreChange (handleScoreChange st qId (some 5)).state qId none).state.currentDomainData
        = some d ∧
      d.questions.find? (fun q => decide (q.id = qId)) = some q ∧
      q.score = none ∧ q.band = Band.NotAssessed) ∧
    (overridesOf
      (handleScoreChange (handleScoreChange st qId (some 5)).state qId none).state.scoreOverrides
      data.domain).lookup qId = none ∧
    (∀ fetched : DomainData,
      (fetched.questions.map (fun q => q.id)).Nodup →
      (∀ q ∈ fetched.questions, q.pillar ∈ pillarOrder) →
      ∃ d,
        (loadDomainDetail
          (handleScoreChange (handleScoreChange st qId (some 5)).state qId none).state
          data.domain fetched).state.currentDomainData = some d ∧
        d.questions.find? (fun q => decide (q.id = qId)) =
          fetched.questions.find? (fun q => decide (q.id = qId))) := by
  obtain ⟨d1, hd1, hdom1, hqs1⟩ := handleScoreChange_questions qId (some 5) hopen
  obtain ⟨d2, hd2, hdom2, hqs2⟩ := handleScoreChange_questions qId none hd1
  have hq1 : ∃ q ∈ d1.questions, q.id = qId := by
    obtain ⟨q, hfind, _, _⟩ := find_setQuestionScore_of_mem hq (parsedScore (some 5))
      (classify (parsedScore (some 5)))
    rw [← hqs1] at hfind
    exact ⟨q, List.mem_of_find?_eq_some hfind, by simpa using List.find?_some hfind⟩
  have hstore : (overridesOf
      (handleScoreChange (handleScoreChange st qId (some 5)).state qId none).state.scoreOverrides
      data.domain).lookup qId = none := by
    rw [handleScoreChange_store_eq qId none hd1, hdom1, overridesOf_storeOverride, if_pos rfl]
    simp [parsedScore, setOverride, lookup_objDelete]
  refine ⟨?_, hstore, ?_⟩
  · obtain ⟨q, hfind, hs, hb⟩ := find_setQuestionScore_of_mem hq1 (parsedScore none)
      (classify (parsedScore none))
    exact ⟨d2, q, hd2, by rw [hqs2]; exact hfind, hs, hb⟩
  · intro fetched hids hwf
    rw [loadDomainDetail_eq _ data.domain fetched hids hwf]
    exact ⟨_, rfl, find_specApplyOverrides_of_absent _ _ _ hstore⟩

/-- Claim C4 against the code: in "sales", loaded from the fetched detail, question "Q1"
was fetched with score 3.  After `handleScoreChange` with 5 and then with the empty value
the score of "Q1" in the snapshot is null where the claim asks for 3, the overall score
of the snapshot, of the summary cache and of the matrix row is 5.00 (the mean of the one
scored question left) where the fetched scores give 4.00, and the override entry is
deleted.  Loading the domain again, as when switching domains and back, shows "Q1" with
3 and overall 4.00 in the snapshot, while the summary cache and the matrix keep 5.00. -/
theorem handleScoreChange64_clear_loses_fetched_score :
    (loadDomainDetail64 salesState "sales" salesDomain).state = salesState ∧
    (salesDomain.questions.find? (fun q => decide (q.id = "Q1"))).map (fun q => q.score)
      = some (some 3) ∧
    salesAfterSet.currentDomainData.map
      (fun d => (d.questions.map (fun q => (q.id, q.score)), d.overall_score))
      = some ([("Q1", some 5), ("Q2", some 5), ("Q3", none)], some 5) ∧
    overridesOf salesAfterSet.scoreOverrides "sales" = [("Q1", some 5)] ∧
    (handleScoreChange64 salesAfterSet "Q1" none).threw = false ∧
    salesAfterClear.currentDomainData.map
      (fun d => (d.questions.map (fun q => (q.id, q.score, q.band)), d.overall_score))
      = some ([("Q1", none, Band.NotAssessed), ("Q2", some 5, Band.Optimized),
          ("Q3", none, Band.NotAssessed)], some 5) ∧
    overridesOf salesAfterClear.scoreOverrides "sales" = [] ∧
    salesAfterClear.allDomains.map (fun e => (e.domain, e.overall_score))
      = [("finance", some 2), ("sales", some 5)] ∧
    salesAfterClear.overviewData.map (fun ov => ov.matrix.map (fun r => (r.domain, r.overall)))
      = some [("sales", some 5), ("finance", some 2)] ∧
    (loadDomainDetail64 salesAfterClear "sales" salesDomain).threw = false ∧
    salesReloaded.currentDomainData.map
      (fun d => (d.questions.map (fun q => (q.id, q.score)), d.overall_score))
      = some ([("Q1", some 3), ("Q2", some 5), ("Q3", none)], some 4) ∧
    salesReloaded.allDomains = salesAfterClear.allDomains ∧
    salesReloaded.overviewData = salesAfterClear.overviewData := by
  refine ⟨?_, ?_, ?_, ?_, ?_, ?_, ?_, ?_, ?_, ?_, ?_, ?_, ?_⟩ <;> decide!

/-! ## Frame of a score change -/

theorem updateFirst_length {α : Type} (p : α → Bool) (f : α → α) (l : List α) :
    (updateFirst p f l).length = l.length := by
  induction l with
  | nil => rfl
  | cons a l ih =>
    unfold updateFirst
    split
    · rfl
    · simp only [List.length_cons, ih]

theorem updateFirst_getElem_of_not {α : Type} (p : α → Bool) (f : α → α) (l : List α) :
    ∀ (i : Nat) (a : α), l[i]? = some a → p a = false → (updateFirst p f l)[i]? = some a := by
  induction l with
  | nil =>
    intro i a h
    simp at h
  | cons b l ih =>
    intro i a h hp
    unfold updateFirst
    cases i with
    | zero =>
      simp only [List.getElem?_cons_zero, Option.some.injEq] at h
      subst h
      simp [hp]
    | succ i =>
      simp only [List.getElem?_cons_succ] at h
      split
      · simpa using h
      · simpa using ih i a h hp

theorem updateMatrix_frame {ovd : Option Overview} {ov : Overview} (data : DomainData)
    (h : ovd = some ov) :
    ∃ ov1, updateMatrix ovd data = some ov1 ∧ ov1.matrix.length = ov.matrix.length ∧
      ∀ (i : Nat) (r : MatrixRow), ov.matrix[i]? = some r → r.domain ≠ data.domain →
        ov1.matrix[i]? = some r := by
  subst h
  refine ⟨_, rfl, updateFirst_length _ _ _, ?_⟩
  intro i r hr hne
  exact updateFirst_getElem_of_not _ _ _ i r hr (by simpa using hne)

theorem updateSummary_frame (all : List SummaryEntry) (data : DomainData) :
    (updateSummary all data).length = all.length ∧
      ∀ (i : Nat) (e : SummaryEntry), all[i]? = some e → e.domain ≠ data.domain →
        (updateSummary all data)[i]? = some e := by
  refine ⟨updateFirst_length _ _ _, ?_⟩
  intro i e he hne
  exact updateFirst_getElem_of_not _ _ _ i e he (by simpa using hne)

theorem setQuestionScore_frame (qs : List Question) (qId : String) (s : Option ℚ) (b : Band) :
    (setQuestionScore qs qId s b).length = qs.length ∧
      ∀ (i : Nat) (q : Question), qs[i]? = some q → q.id ≠ qId →
        (setQuestionScore qs qId s b)[i]? = some q := by
  refine ⟨updateFirst_length _ _ _, ?_⟩
  intro i q hq hne
  exact updateFirst_getElem_of_not _ _ _ i q hq (by simpa using hne)

theorem handleScoreChange_allDomains {st : State} {data : DomainData} (qId : String)
    (s : Option ℤ) (hopen : st.currentDomainData = some data) :
    (handleScoreChange st qId s).state.allDomains = st.allDomains ∨
    ∃ d, d.domain = data.domain ∧
      (handleScoreChange st qId s).state.allDomains = updateSummary st.allDomains d := by
  cases hr : recalcDomainAggregates
      (updateQuestion data qId (parsedScore s) (classify (parsedScore s))) with
  | none =>
    rw [handleScoreChange_of_throw hopen hr]
    exact Or.inl rfl
  | some d =>
    rw [handleScoreChange_of_recalc hopen hr]
    exact Or.inr ⟨d, by rw [recalc_some hr]; rfl, rfl⟩

theorem handleScoreChange_overviewData {st : State} {data : DomainData} (qId : String)
    (s : Option ℤ) (hopen : st.currentDomainData = some data) :
    (handleScoreChange st qId s).state.overviewData = st.overviewData ∨
    ∃ d, d.domain = data.domain ∧
      (handleScoreChange st qId s).state.overviewData = updateMatrix st.overviewData d := by
  cases hr : recalcDomainAggregates
      (updateQuestion data qId (parsedScore s) (classify (parsedScore s))) with
  | none =>
    rw [handleScoreChange_of_throw hopen hr]
    exact Or.inl rfl
  | some d =>
    rw [handleScoreChange_of_recalc hopen hr]
    exact Or.inr ⟨d, by rw [recalc_some hr]; rfl, rfl⟩

/-- Claim C14: frame of `handleScoreChange`.  With a snapshot of domain `d` open, a call
for question id `qId` leaves every question of the snapshot with another id as it was
(score, band and all), every override entry other than the one of `d` and `qId`, every
summary entry of another domain and every matrix row of another domain unchanged; with
no snapshot open the call changes nothing of the override store, the summary cache and
the matrix. -/
theorem handleScoreChange_frame (st : State) (qId : String) (s : Option ℤ) :
    (∀ data, st.currentDomainData = some data →
      (∃ d, (handleScoreChange st qId s).state.currentDomainData = some d ∧
        d.questions.length = data.questions.length ∧
        ∀ (i : Nat) (q : Question), data.questions[i]? = some q → q.id ≠ qId →
          d.questions[i]? = some q) ∧
      (∀ d1 q1, ¬ (d1 = data.domain ∧ q1 = qId) →
        (overridesOf (handleScoreChange st qId s).state.scoreOverrides d1).lookup q1 =
          (overridesOf st.scoreOverrides d1).lookup q1) ∧
      ((handleScoreChange st qId s).state.allDomains.length = st.allDomains.length ∧
        ∀ (i : Nat) (e : SummaryEntry), st.allDomains[i]? = some e → e.domain ≠ data.domain →
          (handleScoreChange st qId s).state.allDomains[i]? = some e) ∧
      (st.overviewData = none → (handleScoreChange st qId s).state.overviewData = none) ∧
      (∀ ov, st.overviewData = some ov →
        ∃ ov1, (handleScoreChange st qId s).state.overviewData = some ov1 ∧
          ov1.matrix.length = ov.matrix.length ∧
          ∀ (i : Nat) (r : MatrixRow), ov.matrix[i]? = some r → r.domain ≠ data.domain →
            ov1.matrix[i]? = some r)) ∧
    (st.currentDomainData = none →
      (handleScoreChange st qId s).state.scoreOverrides = st.scoreOverrides ∧
      (handleScoreChange st qId s).state.allDomains = st.allDomains ∧
      (handleScoreChange st qId s).state.overviewData = st.overviewData ∧
      (handleScoreChange st qId s).state.currentDomainData = none) := by
  constructor
  · intro data hopen
    refine ⟨?_, ?_, ?_, ?_, ?_⟩
    · obtain ⟨d, hd, _, hqs⟩ := handleScoreChange_questions qId s hopen
      refine ⟨d, hd, ?_, ?_⟩
      · rw [hqs]
        exact (setQuestionScore_frame _ _ _ _).1
      · rw [hqs]
        exact (setQuestionScore_frame _ _ _ _).2
    · intro d1 q1 hne
      rw [handleScoreChange_store_eq qId s hopen, overridesOf_storeOverride]
      by_cases hd : d1 = data.domain
      · have hq : q1 ≠ qId := fun e => hne ⟨hd, e⟩
        rw [if_pos hd, hd]
        cases parsedScore s with
        | none => simp [setOverride, lookup_objDelete, hq]
        | some x => simp [setOverride, lookup_objSet, hq]
      · rw [if_neg hd]
    · rcases handleScoreChange_allDomains qId s hopen with h | ⟨d, hdom, h⟩
      · rw [h]
        exact ⟨rfl, fun _ _ he _ => he⟩
      · rw [h, ← hdom]
        exact updateSummary_frame _ _
    · intro hnone
      rcases handleScoreChange_overviewData qId s hopen with h | ⟨d, _, h⟩
      · rw [h, hnone]
      · rw [h, hnone]
        rfl
    · intro ov hov
      rcases handleScoreChange_overviewData qId s hopen with h | ⟨d, hdom, h⟩
      · rw [h, hov]
        exact ⟨ov, rfl, rfl, fun _ _ hr _ => hr⟩
      · rw [h, ← hdom]
        exact updateMatrix_frame d hov
  · intro hnone
    have h1 : handleScoreChange st qId s = { state := st, threw := false } := by
      simp only [handleScoreChange, hnone]
    rw [h1]
    exact ⟨rfl, rfl, rfl, hnone⟩

/-- The witness of C14: setting "Q3" of "sales" to 2 keeps "Q1" and "Q2", the summary
entry and the matrix row of "finance"; without an open snapshot nothing changes. -/
theorem handleScoreChange_frame_witness :
    (((handleScoreChange salesState "Q3" (some 2)).state.currentDomainData.map
        (fun d => d.questions.map (fun q => (q.id, q.score, q.band))))
        = some [("Q1", some 3, Band.Defined), ("Q2", some 5, Band.Optimized),
            ("Q3", some 2, Band.Developing)] ∧
      (handleScoreChange salesState "Q3" (some 2)).state.allDomains[0]?
        = salesState.allDomains[0]? ∧
      ((handleScoreChange salesState "Q3" (some 2)).state.overviewData.map
        (fun o => o.matrix[1]?)) = some (salesMatrix.matrix[1]?)) ∧
    (∃ d, (handleScoreChange salesState "Q3" (some 2)).state.currentDomainData = some d ∧
      d.questions.length = salesRecomputed.questions.length ∧
      ∀ (i : Nat) (q : Question), salesRecomputed.questions[i]? = some q → q.id ≠ "Q3" →
        d.questions[i]? = some q) ∧
    ({ salesState with currentDomainData := none }.currentDomainData = none →
      (handleScoreChange { salesState with currentDomainData := none } "Q3"
        (some 2)).state.scoreOverrides = salesState.scoreOverrides ∧
      (handleScoreChange { salesState with currentDomainData := none } "Q3"
        (some 2)).state.allDomains = salesState.allDomains ∧
      (handleScoreChange { salesState with currentDomainData := none } "Q3"
        (some 2)).state.overviewData = salesState.overviewData ∧
      (handleScoreChange { salesState with currentDomainData := none } "Q3"
        (some 2)).state.currentDomainData = none) :=
  ⟨by decide!,
   ((handleScoreChange_frame salesState "Q3" (some 2)).1 salesRecomputed rfl).1,
   (handleScoreChange_frame { salesState with currentDomainData := none } "Q3" (some 2)).2⟩

/-! ## Malformed shapes -/

theorem push_lookup_none {ps ps1 : PillarScores} {k k1 : String} {x : ℚ}
    (h : ps.push k x = some ps1) (hk : ps.lookup k1 = none) : ps1.lookup k1 = none := by
  rw [push_lookup h]
  split
  · rw [hk]
    rfl
  · exact hk

theorem collectScores_none (qs : List Question) :
    ∀ ps : PillarScores,
      (∃ q ∈ qs, q.score ≠ none ∧ ps.lookup q.pillar = none) → collectScores qs ps = none := by
  induction qs with
  | nil =>
    rintro ps ⟨q, hq, _⟩
    simp at hq
  | cons q0 qs ih =>
    rintro ps ⟨q, hq, hs, hl⟩
    cases hs0 : q0.score with
    | none =>
      simp only [collectScores, hs0]
      rcases List.mem_cons.1 hq with rfl | hq
      · exact absurd hs0 hs
      · exact ih ps ⟨q, hq, hs, hl⟩
    | some x =>
      simp only [collectScores, hs0]
      cases ha : ps.push q0.pillar x with
      | none => rfl
      | some psa =>
        simp only
        rcases List.mem_cons.1 hq with rfl | hq
        · unfold PillarScores.push at ha
          rw [hl] at ha
          cases ha
        · exact ih psa ⟨q, hq, hs, push_lookup_none ha hl⟩

/-- The aggregation throws exactly when a scored question names a pillar outside the
four fixed names. -/
theorem recalc_eq_none_iff (data : DomainData) :
    recalcDomainAggregates data = none ↔
      ∃ q ∈ data.questions, q.score ≠ none ∧ q.pillar ∉ pillarOrder := by
  constructor
  · intro h
    by_contra hno
    push_neg at hno
    obtain ⟨ps, hps⟩ := collectScores_isSome data.questions (pillarOrder.map (fun p => (p, [])))
      (fun q hmem hs => by rw [lookup_pillarOrder, if_pos (hno q hmem hs)]; rfl)
    rw [recalc_eq_map, hps] at h
    cases h
  · rintro ⟨q, hq, hs, hp⟩
    rw [recalc_eq_map, collectScores_none data.questions _
      ⟨q, hq, hs, by rw [lookup_pillarOrder, if_neg hp]⟩]
    rfl

/-- Claim C11 against the code: on "sales" with a fourth question scored 4 in the unknown
pillar "Data Quality" the aggregation throws, so `loadDomainDetail` installs no snapshot,
where the claim asks for a normal return with overall 4.00 (the mean of 3, 5 and 4); with
that question unscored the aggregation returns. -/
theorem recalcDomainAggregates_throws_on_unknown_pillar :
    recalcDomainAggregates malformedSales = none ∧
    specAverage (specScores malformedSales.questions) = some 4 ∧
    (loadDomainDetail { salesState with currentDomainData := none } "sales"
      malformedSales).threw = true ∧
    (loadDomainDetail { salesState with currentDomainData := none } "sales"
      malformedSales).state.currentDomainData = none ∧
    (recalcDomainAggregates malformedUnscored).map (fun d => d.overall_score)
      = some (some 4) := by
  decide!

/-! ## Pillar counts -/

theorem length_specScores_pillar (qs : List Question) (n : PillarName) :
    (specScores (specPillarQuestions qs n)).length = specScoredCount qs n := by
  rw [specScores_eq]
  unfold specPillarQuestions specScoredCount
  induction qs with
  | nil => rfl
  | cons q qs ih =>
    by_cases hp : q.pillar = n.key
    · cases hs : q.score with
      | none => simp [List.filter_cons, List.countP_cons, hp, hs, ih]
      | some x => simp [List.filter_cons, List.countP_cons, hp, hs, ih]
    · simp [List.filter_cons, List.countP_cons, hp, ih]

theorem specScoredCount_le_total (qs : List Question) (n : PillarName) :
    specScoredCount qs n ≤ specTotalCount qs n := by
  unfold specScoredCount specTotalCount
  apply List.countP_mono_left
  intro q _ h
  simp only [Bool.and_eq_true] at h
  exact h.1

/-- Counterexample to C12 as stated: the "Data as a Product" pillar of `staleCounts`
arrives with `total_count` 0; after the aggregation its `scored_count` is 2 and its
`total_count` still 0, while the pillar has 2 questions. -/
theorem recalcDomainAggregates_keeps_total_count :
    (recalcDomainAggregates staleCounts).map
        (fun d => d.pillars.map (fun p => (p.name, p.scored_count, p.total_count)))
      = some [(PillarName.DomainOwnership, 0, 1), (PillarName.DataAsAProduct, 2, 0)] ∧
    specTotalCount staleCounts.questions PillarName.DataAsAProduct = 2 ∧
    specScoredCount staleCounts.questions PillarName.DataAsAProduct = 2 := by
  decide!

/-- Claim C12, amended: on a domain whose questions name fixed pillars the aggregation
returns and leaves every pillar of the pillar list with `scored_count` equal to the
number of questions of that pillar with a non-null score, whatever it carried before;
`total_count` is not written and keeps the value it carried before.  So `scored_count`
is at most the number of questions of the pillar, and at most `total_count` whenever
`total_count` is that number. -/
theorem recalcDomainAggregates_counts (data : DomainData)
    (hq : ∀ q ∈ data.questions, q.pillar ∈ pillarOrder) :
    ∃ d, recalcDomainAggregates data = some d ∧
      List.Forall₂
        (fun p0 p1 => p1.name = p0.name ∧
          p1.scored_count = specScoredCount data.questions p0.name ∧
          p1.total_count = p0.total_count)
        data.pillars d.pillars ∧
      ∀ p1 ∈ d.pillars,
        p1.scored_count ≤ specTotalCount data.questions p1.name ∧
        (p1.total_count = specTotalCount data.questions p1.name →
          p1.scored_count ≤ p1.total_count) := by
  refine ⟨withReferenceAggregates data, recalc_of_fixed_pillars data hq, ?_, ?_⟩
  · simp only [withReferenceAggregates, List.forall₂_map_right_iff]
    apply List.forall₂_same.2
    intro p _
    exact ⟨rfl, length_specScores_pillar _ _, rfl⟩
  · intro p1 hp1
    simp only [withReferenceAggregates, List.mem_map] at hp1
    obtain ⟨p0, _, rfl⟩ := hp1
    have hle : (specScores (specPillarQuestions data.questions p0.name)).length
        ≤ specTotalCount data.questions p0.name := by
      rw [length_specScores_pillar]
      exact specScoredCount_le_total _ _
    refine ⟨hle, fun h => ?_⟩
    have h2 : p0.total_count = specTotalCount data.questions p0.name := h
    show (specScores (specPillarQuestions data.questions p0.name)).length ≤ p0.total_count
    rw [h2]
    exact hle

/-- The witness of the amended C12: the "sales" scenario. -/
theorem recalcDomainAggregates_counts_witness :
    (recalcDomainAggregates salesDomain).map
        (fun d => d.pillars.map (fun p => (p.scored_count, p.total_count)))
      = some [(0, 1), (2, 2), (0, 0), (0, 0)] ∧
    ∃ d, recalcDomainAggregates salesDomain = some d ∧
      List.Forall₂
        (fun p0 p1 => p1.name = p0.name ∧
          p1.scored_count = specScoredCount salesDomain.questions p0.name ∧
          p1.total_count = p0.total_count)
        salesDomain.pillars d.pillars ∧
      ∀ p1 ∈ d.pillars,
        p1.scored_count ≤ specTotalCount salesDomain.questions p1.name ∧
        (p1.total_count = specTotalCount salesDomain.questions p1.name →
          p1.scored_count ≤ p1.total_count) :=
  ⟨by decide!, recalcDomainAggregates_counts salesDomain (by decide)⟩

/-! ## Range of the aggregates -/

theorem mem_specScores {qs : List Question} {x : ℚ} :
    x ∈ specScores qs ↔ ∃ q ∈ qs, q.score = some x := by
  rw [specScores_eq]
  simp [List.mem_filterMap]

theorem mem_specScores_pillar {qs : List Question} {n : PillarName} {x : ℚ}
    (h : x ∈ specScores (specPillarQuestions qs n)) : x ∈ specScores qs := by
  rw [mem_specScores] at h ⊢
  obtain ⟨q, hq, hs⟩ := h
  exact ⟨q, (List.mem_filter.1 hq).1, hs⟩

theorem mean_bounds (a : ℚ) (S : List ℚ) (lo hi : ℚ) (h : ∀ x ∈ a :: S, lo ≤ x ∧ x ≤ hi) :
    lo ≤ specMean (a :: S) ∧ specMean (a :: S) ≤ hi := by
  have hb := sum_bounds (a :: S) lo hi h
  have hpos : (0 : ℚ) < ((a :: S).length : ℚ) := by
    simp only [List.length_cons, Nat.cast_add, Nat.cast_one]
    positivity
  unfold specMean
  constructor
  · rw [le_div_iff₀ hpos]
    exact hb.1
  · rw [div_le_iff₀ hpos]
    exact hb.2

/-- Rounding to 2 decimals does not cross a multiple of 1/100. -/
theorem specRound2_grid (m : ℚ) (k : ℤ) :
    ((k : ℚ) / 100 ≤ m → (k : ℚ) / 100 ≤ specRound2 m) ∧
    (m ≤ (k : ℚ) / 100 → specRound2 m ≤ (k : ℚ) / 100) := by
  unfold specRound2
  rw [round_eq]
  constructor
  · intro h
    have h1 : k ≤ ⌊m * 100 + 1 / 2⌋ := by
      rw [Int.le_floor]
      rw [div_le_iff₀ (by norm_num : (0 : ℚ) < 100)] at h
      linarith
    have h2 : (k : ℚ) ≤ (⌊m * 100 + 1 / 2⌋ : ℚ) := by exact_mod_cast h1
    exact div_le_div_of_nonneg_right h2 (by norm_num)
  · intro h
    have h1 : ⌊m * 100 + 1 / 2⌋ < k + 1 := by
      rw [Int.floor_lt]
      rw [le_div_iff₀ (by norm_num : (0 : ℚ) < 100)] at h
      push_cast
      linarith
    have h2 : (⌊m * 100 + 1 / 2⌋ : ℚ) ≤ (k : ℚ) := by exact_mod_cast Int.lt_add_one_iff.1 h1
    exact div_le_div_of_nonneg_right h2 (by norm_num)

theorem exists_min_max (a : ℚ) (S : List ℚ) :
    ∃ lo ∈ a :: S, ∃ hi ∈ a :: S, ∀ x ∈ a :: S, lo ≤ x ∧ x ≤ hi := by
  induction S with
  | nil => exact ⟨a, by simp, a, by simp, fun x hx => by simp at hx; simp [hx]⟩
  | cons b S ih =>
    obtain ⟨lo, hlo, hi, hhi, hall⟩ := ih
    have hmem : ∀ y ∈ a :: S, y ∈ a :: b :: S := by
      intro y hy
      rcases List.mem_cons.1 hy with rfl | hy
      · simp
      · simp [hy]
    refine ⟨min lo b, ?_, max hi b, ?_, ?_⟩
    · rcases min_choice lo b with h | h
      · rw [h]; exact hmem lo hlo
      · rw [h]; simp
    · rcases max_choice hi b with h | h
      · rw [h]; exact hmem hi hhi
      · rw [h]; simp
    · intro x hx
      have hx2 : x ∈ a :: S ∨ x = b := by
        simp only [List.mem_cons] at hx ⊢
        tauto
      rcases hx2 with hx2 | rfl
      · exact ⟨le_trans (min_le_left _ _) (hall x hx2).1,
          le_trans (hall x hx2).2 (le_max_left _ _)⟩
      · exact ⟨min_le_right _ _, le_max_right _ _⟩

theorem specAverage_range {S : List ℚ} {a : ℚ} (h : specAverage S = some a)
    (hr : ∀ x ∈ S, 1 ≤ x ∧ x ≤ 5) : 1 ≤ a ∧ a ≤ 5 := by
  cases S with
  | nil => cases h
  | cons b S =>
    simp only [specAverage, Option.some.injEq] at h
    subst h
    have hm := mean_bounds b S 1 5 hr
    have h1 := (specRound2_grid (specMean (b :: S)) 100).1 (by norm_num; exact hm.1)
    have h5 := (specRound2_grid (specMean (b :: S)) 500).2 (by norm_num; exact hm.2)
    norm_num at h1 h5
    exact ⟨h1, h5⟩

/-- Counterexample to C13 as stated: the only question of `fractionalDomain` names a
fixed pillar and has score 3.456, within 1 and 5; the recomputed overall score is 3.46,
above the maximum question score. -/
theorem overall_score_above_maximum :
    (∀ q ∈ fractionalDomain.questions, q.pillar ∈ pillarOrder) ∧
    (∀ x ∈ specScores fractionalDomain.questions, 1 ≤ x ∧ x ≤ 5) ∧
    (recalcDomainAggregates fractionalDomain).map (fun d => d.overall_score)
      = some (some 3.46) ∧
    (∀ x ∈ specScores fractionalDomain.questions, x < 3.46) := by
  decide!

/-- Claim C13, amended: on a domain whose questions name fixed pillars and whose non-null
question scores all lie between 1 and 5, the aggregation returns, and every non-null
pillar `avg_score` and a non-null `overall_score` lie between 1 and 5.  The overall score
lies within 1/200 of the interval from the minimum to the maximum non-null question
score, and inside that interval when the question scores are multiples of 1/100 (whole
numbers in particular). -/
theorem recalcDomainAggregates_range (data : DomainData)
    (hq : ∀ q ∈ data.questions, q.pillar ∈ pillarOrder)
    (hrange : ∀ x ∈ specScores data.questions, 1 ≤ x ∧ x ≤ 5) :
    ∃ d, recalcDomainAggregates data = some d ∧
      (∀ p ∈ d.pillars, ∀ a, p.avg_score = some a → 1 ≤ a ∧ a ≤ 5) ∧
      (∀ o, d.overall_score = some o →
        1 ≤ o ∧ o ≤ 5 ∧
        ∃ lo ∈ specScores data.questions, ∃ hi ∈ specScores data.questions,
          (∀ x ∈ specScores data.questions, lo ≤ x ∧ x ≤ hi) ∧
          lo - 1 / 200 ≤ o ∧ o ≤ hi + 1 / 200 ∧
          ((∀ x ∈ specScores data.questions, ∃ k : ℤ, x = (k : ℚ) / 100) →
            lo ≤ o ∧ o ≤ hi)) := by
  refine ⟨withReferenceAggregates data, recalc_of_fixed_pillars data hq, ?_, ?_⟩
  · intro p hp a ha
    rw [referenceAggregates_avg data p hp] at ha
    exact specAverage_range ha (fun x hx => hrange x (mem_specScores_pillar hx))
  · intro o ho
    have ho2 : specAverage (specScores data.questions) = some o := ho
    obtain ⟨h1, h5⟩ := specAverage_range ho2 hrange
    refine ⟨h1, h5, ?_⟩
    cases hS : specScores data.questions with
    | nil =>
      rw [hS] at ho2
      cases ho2
    | cons b S =>
      rw [hS] at ho2
      simp only [specAverage, Option.some.injEq] at ho2
      obtain ⟨lo, hlo, hi, hhi, hall⟩ := exists_min_max b S
      have hm := mean_bounds b S lo hi hall
      have hnear := (specRound2_nearest (specMean (b :: S))).2
      rw [ho2] at hnear
      have hab := abs_le.1 hnear
      refine ⟨lo, hlo, hi, hhi, hall, by linarith [hab.2, hm.1], by linarith [hab.1, hm.2], ?_⟩
      intro hgrid
      obtain ⟨k1, hk1⟩ := hgrid lo hlo
      obtain ⟨k2, hk2⟩ := hgrid hi hhi
      have g1 := (specRound2_grid (specMean (b :: S)) k1).1 (by rw [← hk1]; exact hm.1)
      have g2 := (specRound2_grid (specMean (b :: S)) k2).2 (by rw [← hk2]; exact hm.2)
      rw [ho2] at g1 g2
      exact ⟨by rw [hk1]; exact g1, by rw [hk2]; exact g2⟩

/-- The witness of the amended C13: the "sales" scenario, scores 3 and 5, overall 4.00. -/
theorem recalcDomainAggregates_range_witness :
    (∀ q ∈ salesDomain.questions, q.pillar ∈ pillarOrder) ∧
    (∀ x ∈ specScores salesDomain.questions, 1 ≤ x ∧ x ≤ 5) ∧
    ∃ d, recalcDomainAggregates salesDomain = some d ∧
      (∀ p ∈ d.pillars, ∀ a, p.avg_score = some a → 1 ≤ a ∧ a ≤ 5) ∧
      (∀ o, d.overall_score = some o →
        1 ≤ o ∧ o ≤ 5 ∧
        ∃ lo ∈ specScores salesDomain.questions, ∃ hi ∈ specScores salesDomain.questions,
          (∀ x ∈ specScores salesDomain.questions, lo ≤ x ∧ x ≤ hi) ∧
          lo - 1 / 200 ≤ o ∧ o ≤ hi + 1 / 200 ∧
          ((∀ x ∈ specScores salesDomain.questions, ∃ k : ℤ, x = (k : ℚ) / 100) →
            lo ≤ o ∧ o ≤ hi)) :=
  ⟨by decide, by decide!,
   recalcDomainAggregates_range salesDomain (by decide) (by decide!)⟩

end DataMeshMaturity
